import Mathlib

/-!
# LuDock — verification of the core pipeline against its specification

A shallow embedding, in Lean 4, of the LuDock core (data model, DSL parser,
loader, spatial enrichment, diff engine, analysis adapter and pipeline
driver), translated from the Rust sources under `src/`, together with
theorems settling the specification's claims about it.

Modelling conventions:
* Rust `f32`/`f64` arithmetic is modelled exactly over `ℚ`; comparisons that
  the code performs on a Euclidean distance (a square root) are modelled by
  comparing squared quantities, which is equivalent over ordered fields for
  non-negative operands.
* Rust `HashMap<String, _>` is modelled as an association list with
  `HashMap`-style insert (replace the existing key, else append).  The
  *iteration order* of a Rust `std::collections::HashMap` is unspecified and
  randomized per process; where that order is observable (JSON serialization
  of `properties`) the model quantifies over the order explicitly.
* `uuid::Uuid::new_v5` (RFC 4122, SHA-1 based) is computed bit-exactly by an
  executable SHA-1 implementation over byte lists.
* Filesystem trees are first-class values (`FsEntry`); `std::fs::read_dir`
  plus the loader's sort is modelled by sorting the entry list by name.
-/

set_option maxRecDepth 100000

namespace LuDock

/-! ## Rational 3-vectors and boxes (exact model of `glam::Vec3` / wrappers) -/

/-- Exact model of `Vec3Wrapper` (`datamodel.rs`): three coordinates. -/
structure Vec3q where
  x : ℚ
  y : ℚ
  z : ℚ
  deriving DecidableEq, Repr

/-- Exact model of `AabbWrapper` (`datamodel.rs`): a min/max corner pair. -/
structure Aabbq where
  min : Vec3q
  max : Vec3q
  deriving DecidableEq, Repr

/-- Exact model of `CFrameWrapper` (`datamodel.rs`): position plus the
12-component layout `[tx,ty,tz, r00,r01,r02, r10,r11,r12, r20,r21,r22]`.
The fixed-size array is modelled as a 12-element access function backed by a
list; `components.getD i 0` plays the role of `components[i]`. -/
structure CFrameq where
  position : Vec3q
  components : List ℚ
  deriving DecidableEq, Repr

/-- Model of `CFrameWrapper::new(x, y, z)` (`datamodel.rs` line 96): translation with
identity basis, components `[x, y, z, 1,0,0, 0,1,0, 0,0,1]`. -/
def CFrameq.new (x y z : ℚ) : CFrameq :=
  { position := ⟨x, y, z⟩
    components := [x, y, z, 1, 0, 0, 0, 1, 0, 0, 0, 1] }

/-- Exact model of `Color3Wrapper`. -/
structure Color3q where
  r : ℚ
  g : ℚ
  b : ℚ
  deriving DecidableEq, Repr

/-- Model of `Color3Wrapper::from_rgb` — divides each channel by 255. -/
def Color3q.fromRGB (r g b : ℚ) : Color3q :=
  ⟨r / 255, g / 255, b / 255⟩

/-- Exact model of `UDim2Wrapper`: `(xs, xo, ys, yo)`; offsets are `i32`. -/
structure UDim2q where
  xs : ℚ
  xo : ℤ
  ys : ℚ
  yo : ℤ
  deriving DecidableEq, Repr

/-- Exact model of the `PropertyValue` sum type (`datamodel.rs`). -/
inductive PropertyValue where
  | string (s : String)
  | bool (b : Bool)
  | number (n : ℚ)
  | vector3 (v : Vec3q)
  | cframe (c : CFrameq)
  | color3 (c : Color3q)
  | udim2 (u : UDim2q)
  | enum (s : String)
  deriving DecidableEq, Repr

/-! ## SHA-1 and UUIDv5

Bit-exact executable model of `uuid::Uuid::new_v5` (RFC 4122 §4.3): the SHA-1
digest of the namespace bytes followed by the name bytes, truncated to
16 bytes with the version nibble set to 5 and the RFC variant bits set.
Bytes are `Nat`s below 256, words are `Nat`s below `2^32`. -/

/-- The 32-bit left rotation. -/
def rotl (n x : Nat) : Nat :=
  ((x <<< n) ||| (x >>> (32 - n))) % (2 ^ 32)

/-- Big-endian bytes of a 32-bit word. -/
def wordBytes (w : Nat) : List Nat :=
  [(w >>> 24) % 256, (w >>> 16) % 256, (w >>> 8) % 256, w % 256]

/-- Big-endian 8-byte encoding of the message bit length. -/
def lenBytes (n : Nat) : List Nat :=
  [(n >>> 56) % 256, (n >>> 48) % 256, (n >>> 40) % 256, (n >>> 32) % 256,
   (n >>> 24) % 256, (n >>> 16) % 256, (n >>> 8) % 256, n % 256]

/-- SHA-1 padding: `0x80`, zeros to 56 mod 64, then the bit length. -/
def sha1pad (msg : List Nat) : List Nat :=
  let len := msg.length
  let k := (64 - ((len + 9) % 64)) % 64
  msg ++ [0x80] ++ List.replicate k 0 ++ lenBytes (8 * len)

/-- Decode the first 16 words (big-endian) of a 64-byte chunk. -/
def chunkWords (chunk : List Nat) : List Nat :=
  (List.range 16).map fun i =>
    (chunk.getD (4 * i) 0) <<< 24 ||| (chunk.getD (4 * i + 1) 0) <<< 16 |||
    (chunk.getD (4 * i + 2) 0) <<< 8 ||| chunk.getD (4 * i + 3) 0

/-- Extend 16 words to the 80-word schedule. -/
def extendWords (w16 : List Nat) : List Nat :=
  (List.range 64).foldl
    (fun w i =>
      w ++ [rotl 1 (w.getD (i + 13) 0 ^^^ w.getD (i + 8) 0 ^^^
                    w.getD (i + 2) 0 ^^^ w.getD i 0)])
    w16

/-- The SHA-1 round function and constant for round `i`. -/
def sha1fk (i b c d : Nat) : Nat × Nat :=
  if i < 20 then ((b &&& c) ||| ((0xFFFFFFFF ^^^ b) &&& d), 0x5A827999)
  else if i < 40 then (b ^^^ c ^^^ d, 0x6ED9EBA1)
  else if i < 60 then ((b &&& c) ||| (b &&& d) ||| (c &&& d), 0x8F1BBCDC)
  else (b ^^^ c ^^^ d, 0xCA62C1D6)

/-- Process one 64-byte chunk into the running hash state. -/
def sha1chunk (h : List Nat) (chunk : List Nat) : List Nat :=
  let w := extendWords (chunkWords chunk)
  let st := (List.range 80).foldl
    (fun (st : Nat × Nat × Nat × Nat × Nat) i =>
      let (a, b, c, d, e) := st
      let (f, k) := sha1fk i b c d
      let temp := (rotl 5 a + f + e + k + w.getD i 0) % (2 ^ 32)
      (temp, a, rotl 30 b, c, d))
    (h.getD 0 0, h.getD 1 0, h.getD 2 0, h.getD 3 0, h.getD 4 0)
  let (a, b, c, d, e) := st
  [(h.getD 0 0 + a) % (2 ^ 32), (h.getD 1 0 + b) % (2 ^ 32),
   (h.getD 2 0 + c) % (2 ^ 32), (h.getD 3 0 + d) % (2 ^ 32),
   (h.getD 4 0 + e) % (2 ^ 32)]

/-- Fold the padded message, 64 bytes at a time (structural on a fuel that
bounds the number of chunks, so that the kernel can evaluate it). -/
def sha1blocks : Nat → List Nat → List Nat → List Nat
  | 0, h, _ => h
  | _ + 1, h, [] => h
  | fuel + 1, h, bytes => sha1blocks fuel (sha1chunk h (bytes.take 64)) (bytes.drop 64)

/-- SHA-1 digest (20 bytes) of a byte list. -/
def sha1 (msg : List Nat) : List Nat :=
  let padded := sha1pad msg
  let h := sha1blocks (padded.length / 64)
    [0x67452301, 0xEFCDAB89, 0x98BADCFE, 0x10325476, 0xC3D2E1F0] padded
  h.flatMap wordBytes

/-- Byte list of `Uuid::NAMESPACE_OID` = `6ba7b812-9dad-11d1-80b4-00c04fd430c8`. -/
def namespaceOID : List Nat :=
  [0x6b, 0xa7, 0xb8, 0x12, 0x9d, 0xad, 0x11, 0xd1,
   0x80, 0xb4, 0x00, 0xc0, 0x4f, 0xd4, 0x30, 0xc8]

/-- RFC 4122 §4.3 name-based UUID, SHA-1 variant (`Uuid::new_v5`): the first
16 digest bytes with the version and variant bits patched in. -/
def uuidV5 (namespaceBytes nameBytes : List Nat) : List Nat :=
  let d := (sha1 (namespaceBytes ++ nameBytes)).take 16
  (List.range 16).map fun i =>
    if i = 6 then (d.getD 6 0 &&& 0x0F) ||| 0x50
    else if i = 8 then (d.getD 8 0 &&& 0x3F) ||| 0x80
    else d.getD i 0

/-- UTF-8 bytes of a string; all strings handled by the loader's id seeding in
this development are ASCII, for which code points and UTF-8 bytes agree. -/
def strBytes (s : String) : List Nat :=
  s.toList.map Char.toNat

/-! ## The Instance tree (`datamodel.rs`)

`Instance` is a node of the scene tree.  `id` is the 16-byte UUID;
`properties` models the `HashMap<String, PropertyValue>` as an association
list with unique keys (HashMap insert semantics). -/

/-- Exact model of `Instance` (`datamodel.rs` lines 7–22). -/
inductive Instance where
  | mk (id : List Nat) (name : String) (class_name : String)
       (properties : List (String × PropertyValue))
       (children : List Instance)
       (full_path : String)
       (world_bounds : Option Aabbq)
       (center : Option Vec3q)
  deriving Repr

def Instance.id : Instance → List Nat
  | .mk i _ _ _ _ _ _ _ => i

def Instance.name : Instance → String
  | .mk _ n _ _ _ _ _ _ => n

def Instance.class_name : Instance → String
  | .mk _ _ c _ _ _ _ _ => c

def Instance.properties : Instance → List (String × PropertyValue)
  | .mk _ _ _ p _ _ _ _ => p

def Instance.children : Instance → List Instance
  | .mk _ _ _ _ cs _ _ _ => cs

def Instance.full_path : Instance → String
  | .mk _ _ _ _ _ f _ _ => f

def Instance.world_bounds : Instance → Option Aabbq
  | .mk _ _ _ _ _ _ w _ => w

def Instance.center : Instance → Option Vec3q
  | .mk _ _ _ _ _ _ _ c => c

instance : Inhabited Instance :=
  ⟨.mk [] "" "" [] [] "" none none⟩

/-- Model of `Instance::new(name, class_name, path_hash_seed)` (`datamodel.rs` lines
26–40): the id is `Uuid::new_v5(NAMESPACE_OID, seed bytes)`; every other
field starts empty (`full_path` is the empty string). -/
def Instance.new (name class_name path_hash_seed : String) : Instance :=
  .mk (uuidV5 namespaceOID (strBytes path_hash_seed))
      name class_name [] [] "" none none

/-- Induction over the instance tree: to prove `P` everywhere it suffices to
prove it at a node given it holds for all children. -/
theorem instanceInduction (P : Instance → Prop)
    (h : ∀ i n c p cs f w ce, (∀ x ∈ cs, P x) → P (.mk i n c p cs f w ce)) :
    ∀ t, P t := by
  intro t
  induction t using Instance.rec (motive_2 := fun cs => ∀ c ∈ cs, P c) with
  | mk i n c p cs f w ce ih => exact h i n c p cs f w ce ih
  | nil =>
    rename_i x hx
    exact absurd hx (List.not_mem_nil x)
  | cons c cs ihc ihcs =>
    rename_i x hx
    rcases List.mem_cons.mp hx with h1 | h2
    · subst h1; exact ihc
    · exact ihcs x h2

/-! ## Filesystem model

The loader walks a directory tree; `FsEntry` is a directory entry (a
directory with its entries, or a file with its text content).  `read_dir`
order is unspecified; the loader sorts entries by raw file name
(`loader.rs` line 49), which the model performs on the whole tree up front
(`sortFs`), an equivalent factoring since each directory is sorted
independently and sorting preserves names. -/

inductive FsEntry where
  | dir (name : String) (entries : List FsEntry)
  | file (name : String) (content : String)
  deriving Repr

def FsEntry.name : FsEntry → String
  | .dir n _ => n
  | .file n _ => n

/-- Stable insertion into a name-sorted list (models the stable
`sort_by_key(|entry| entry.file_name())`; byte-wise comparison of names
agrees with `String` order on ASCII). -/
def insertByName (e : FsEntry) : List FsEntry → List FsEntry
  | [] => [e]
  | x :: xs => if x.name ≤ e.name then x :: insertByName e xs else e :: x :: xs

def sortByName (l : List FsEntry) : List FsEntry :=
  l.foldl (fun acc e => insertByName e acc) []

mutual
/-- Sort every directory's entry list by name, recursively. -/
def sortFs : FsEntry → FsEntry
  | .file n c => .file n c
  | .dir n es => .dir n (sortByName (sortFsList es))

def sortFsList : List FsEntry → List FsEntry
  | [] => []
  | e :: es => sortFs e :: sortFsList es
end

theorem fsEntryInduction (P : FsEntry → Prop)
    (hf : ∀ n c, P (.file n c))
    (hd : ∀ n es, (∀ e ∈ es, P e) → P (.dir n es)) :
    ∀ t, P t := by
  intro t
  induction t using FsEntry.rec (motive_2 := fun es => ∀ e ∈ es, P e) with
  | dir n es ih => exact hd n es ih
  | file n c => exact hf n c
  | nil =>
    rename_i x hx
    exact absurd hx (List.not_mem_nil x)
  | cons e es ihe ihes =>
    rename_i x hx
    rcases List.mem_cons.mp hx with h1 | h2
    · subst h1; exact ihe
    · exact ihes x h2

/-! ## The DSL parser (`parser.rs`)

A shallow embedding of the `nom` parsers: a parser is a function from the
remaining input (a character list) to `Option (rest × value)`; `none`
collapses nom's recoverable errors.  Character classes are the ASCII ones
used by nom's `alpha1`/`digit1` and, for `take_while(is_alphanumeric)`,
the ASCII fragment of Rust's Unicode class (all inputs of interest are
ASCII). -/

def Parse (α : Type) : Type := List Char → Option (List Char × α)

def isAsciiAlpha (c : Char) : Bool :=
  (65 ≤ c.toNat && c.toNat ≤ 90) || (97 ≤ c.toNat && c.toNat ≤ 122)

def isAsciiDigit (c : Char) : Bool :=
  48 ≤ c.toNat && c.toNat ≤ 57

def isAlnumUnd (c : Char) : Bool :=
  isAsciiAlpha c || isAsciiDigit c || c = '_'

def isNomSpace (c : Char) : Bool :=
  c = ' ' || c = '\t' || c = '\r' || c = '\n'

/-- Model of `tag(t)`. -/
def pTag (t : List Char) : Parse Unit := fun inp =>
  if t.isPrefixOf inp then some (inp.drop t.length, ()) else none

/-- Model of `char(c)`. -/
def pCharTok (c : Char) : Parse Char := fun inp =>
  match inp with
  | x :: rest => if x = c then some (rest, c) else none
  | [] => none

/-- Model of `ws(inner)` = `delimited(multispace0, inner, multispace0)`. -/
def pWs (p : Parse α) : Parse α := fun inp =>
  match p (inp.dropWhile isNomSpace) with
  | some (rest, a) => some (rest.dropWhile isNomSpace, a)
  | none => none

/-- Model of `parse_identifier` = `recognize(pair(alt((alpha1, tag("_"))),
take_while(is_alphanumeric or '_')))` (`parser.rs` lines 26–32). -/
def pIdentifier : Parse String := fun inp =>
  match inp with
  | [] => none
  | c :: cs =>
    if isAsciiAlpha c then
      let run := (c :: cs).takeWhile isAsciiAlpha
      let rest1 := (c :: cs).dropWhile isAsciiAlpha
      some (rest1.dropWhile isAlnumUnd, String.mk (run ++ rest1.takeWhile isAlnumUnd))
    else if c = '_' then
      some (cs.dropWhile isAlnumUnd, String.mk ('_' :: cs.takeWhile isAlnumUnd))
    else none

/-- Model of `parse_string`: a double quote, any characters except `"`, a double
quote; no escapes (`parser.rs` lines 34–39). -/
def pStringLit : Parse String := fun inp =>
  match inp with
  | '"' :: rest =>
    let content := rest.takeWhile (fun c => c ≠ '"')
    match rest.dropWhile (fun c => c ≠ '"') with
    | '"' :: rest2 => some (rest2, String.mk content)
    | _ => none
  | _ => none

def natOfDigits (l : List Char) : Nat :=
  l.foldl (fun a c => 10 * a + (c.toNat - 48)) 0

/-- Model of `parse_number` = `recognize((opt('-'), digit1, opt(('.', digit1))))`
followed by an `f64` conversion; the numeric value is modelled exactly
in `ℚ` (`parser.rs` lines 41–51). -/
def pNumber : Parse ℚ := fun inp =>
  let (neg, i1) := match inp with
    | '-' :: t => (true, t)
    | _ => (false, inp)
  let ds := i1.takeWhile isAsciiDigit
  if ds.isEmpty then none
  else
    let i2 := i1.dropWhile isAsciiDigit
    let intPart : ℚ := (natOfDigits ds : ℚ)
    match i2 with
    | '.' :: t =>
      let fs := t.takeWhile isAsciiDigit
      if fs.isEmpty then
        -- opt(pair('.', digit1)) fails and consumes nothing
        some (i2, if neg then -intPart else intPart)
      else
        let v : ℚ := intPart + (natOfDigits fs : ℚ) / ((10 : ℚ) ^ fs.length)
        some (t.dropWhile isAsciiDigit, if neg then -v else v)
    | _ => some (i2, if neg then -intPart else intPart)

/-- Model of `parse_bool` (`parser.rs` lines 62–64). -/
def pBool : Parse Bool := fun inp =>
  match pTag "true".toList inp with
  | some (rest, _) => some (rest, true)
  | none =>
    match pTag "false".toList inp with
    | some (rest, _) => some (rest, false)
    | none => none

/-- Model of `parse_enum`: `Enum.` then two dot-separated identifiers
(`parser.rs` lines 53–60). -/
def pEnum : Parse PropertyValue := fun inp =>
  match pTag "Enum.".toList inp with
  | none => none
  | some (i1, _) =>
    match pIdentifier i1 with
    | none => none
    | some (i2, enumType) =>
      match pCharTok '.' i2 with
      | none => none
      | some (i3, _) =>
        match pIdentifier i3 with
        | none => none
        | some (i4, enumItem) =>
          some (i4, .enum ("Enum." ++ enumType ++ "." ++ enumItem))

/-- Shared shape of the constructor parsers: a tag, `(`, then `n`
comma-separated numbers, then `)`, all with `ws` around punctuation. -/
def pArgs : Nat → Parse (List ℚ) := fun n => fun inp =>
  match n, pWs pNumber inp with
  | _, none => none
  | 0, some _ => none
  | 1, some (i1, q) => some (i1, [q])
  | k + 2, some (i1, q) =>
    match pWs (pCharTok ',') i1 with
    | none => none
    | some (i2, _) =>
      match pArgs (k + 1) i2 with
      | none => none
      | some (i3, qs) => some (i3, q :: qs)

def pCall (tagName : String) (arity : Nat) : Parse (List ℚ) := fun inp =>
  match pTag tagName.toList inp with
  | none => none
  | some (i1, _) =>
    match pWs (pCharTok '(') i1 with
    | none => none
    | some (i2, _) =>
      match pArgs arity i2 with
      | none => none
      | some (i3, qs) =>
        match pWs (pCharTok ')') i3 with
        | none => none
        | some (i4, _) => some (i4, qs)

/-- Model of `parse_vector3` (`parser.rs` lines 68–85). -/
def pVector3 : Parse PropertyValue := fun inp =>
  match pCall "Vector3.new" 3 inp with
  | some (rest, [x, y, z]) => some (rest, .vector3 ⟨x, y, z⟩)
  | _ => none

/-- Model of `parse_cframe` (`parser.rs` lines 87–100): builds
`CFrameWrapper::new(x, y, z)`. -/
def pCFrame : Parse PropertyValue := fun inp =>
  match pCall "CFrame.new" 3 inp with
  | some (rest, [x, y, z]) => some (rest, .cframe (CFrameq.new x y z))
  | _ => none

/-- Model of `parse_color3_from_rgb` (`parser.rs` lines 102–115): channels divided
by 255. -/
def pColor3FromRGB : Parse PropertyValue := fun inp =>
  match pCall "Color3.fromRGB" 3 inp with
  | some (rest, [r, g, b]) => some (rest, .color3 (Color3q.fromRGB r g b))
  | _ => none

/-- Model of `parse_color3_new` (`parser.rs` lines 117–130): channels as-is. -/
def pColor3New : Parse PropertyValue := fun inp =>
  match pCall "Color3.new" 3 inp with
  | some (rest, [r, g, b]) => some (rest, .color3 ⟨r, g, b⟩)
  | _ => none

/-- Model of `parse_udim2` (`parser.rs` lines 132–152): offsets cast with `as i32`
(truncation toward zero). -/
def pUDim2 : Parse PropertyValue := fun inp =>
  match pCall "UDim2.new" 4 inp with
  | some (rest, [xs, xo, ys, yo]) =>
    some (rest, .udim2 ⟨xs, ⌊xo⌋.sign * ⌊|xo|⌋, ys, ⌊yo⌋.sign * ⌊|yo|⌋⟩)
  | _ => none

/-- Model of `parse_value` (`parser.rs` lines 154–168): the ten alternatives, tried
in source order. -/
def pValue : Parse PropertyValue := fun inp =>
  match pBool inp with
  | some (rest, b) => some (rest, .bool b)
  | none =>
  match pVector3 inp with
  | some r => some r
  | none =>
  match pCFrame inp with
  | some r => some r
  | none =>
  match pColor3FromRGB inp with
  | some r => some r
  | none =>
  match pColor3New inp with
  | some r => some r
  | none =>
  match pUDim2 inp with
  | some r => some r
  | none =>
  match pEnum inp with
  | some r => some r
  | none =>
  match pNumber inp with
  | some (rest, n) => some (rest, .number n)
  | none =>
  match pStringLit inp with
  | some (rest, s) => some (rest, .string s)
  | none =>
  match pIdentifier inp with
  | some (rest, s) => some (rest, .string s)
  | none => none

/-- Model of `parse_assignment` (`parser.rs` lines 170–175). -/
def pAssignment : Parse (String × PropertyValue) := fun inp =>
  match pWs pIdentifier inp with
  | none => none
  | some (i1, key) =>
    match pWs (pCharTok '=') i1 with
    | none => none
    | some (i2, _) =>
      match pValue i2 with
      | none => none
      | some (i3, v) => some (i3.dropWhile isNomSpace, (key, v))

/-- Model of `many0(parse_assignment)`: repeat until failure.  The fuel argument
(instantiated with the input length) makes the recursion structural;
`parse_assignment` always consumes input on success, so the fuel never
runs out on real inputs. -/
def many0Assign : Nat → List Char → List (String × PropertyValue) × List Char
  | 0, inp => ([], inp)
  | fuel + 1, inp =>
    match pAssignment inp with
    | none => ([], inp)
    | some (rest, kv) =>
      if rest.length < inp.length then
        let (l, r) := many0Assign fuel rest
        (kv :: l, r)
      else ([], inp)

/-- HashMap-style insert into the association list: replace the value of an
existing key, else append. -/
def insertProp (m : List (String × PropertyValue)) (k : String)
    (v : PropertyValue) : List (String × PropertyValue) :=
  if m.any (fun kv => kv.1 = k) then
    m.map (fun kv => if kv.1 = k then (k, v) else kv)
  else m ++ [(k, v)]

/-- Model of `parse_instance_dsl` (`parser.rs` lines 177–184): run `many0`, then build
the map, later assignments overriding earlier ones.  `many0` cannot fail, so
the result is total: the parsed map plus the unconsumed input. -/
def parseInstanceDsl (input : String) :
    List (String × PropertyValue) × String :=
  let (pairs, rest) := many0Assign (input.toList.length + 1) input.toList
  (pairs.foldl (fun m kv => insertProp m kv.1 kv.2) [], String.mk rest)

/-! ## The loader (`loader.rs`)

`load_project` requires a `game/` directory, builds the `DataModel` root
(seeded with the plain string `"game"`), loads the directory tree and runs
the enrichment pass.  Directory entries are processed in ascending
file-name order.  For each entry the seed of the id is the entry's
*filesystem* path (`entry.path()`, backslashes replaced by `/`). -/

/-- Model of `path.to_string_lossy().replace('\\', "/")` (`loader.rs` line 56). -/
def replaceBackslash (s : String) : String :=
  String.mk (s.toList.map fun c => if c = '\\' then '/' else c)

/-- Index of the last `.` at position ≥ 1, if any — the split point of
Rust's `Path::file_stem` / `Path::extension` on a file name (a leading dot
does not start an extension). -/
def lastDotIdx (cs : List Char) : Option Nat :=
  (List.range cs.length).foldl
    (fun acc i => if 1 ≤ i ∧ cs.getD i ' ' = '.' then some i else acc) none

/-- Model of `path.file_stem()` on the final path component. -/
def fileStem (name : String) : String :=
  match lastDotIdx name.toList with
  | some i => String.mk (name.toList.take i)
  | none => name

/-- Model of `path.extension().and_then(|e| e.to_str()).unwrap_or("")`
(`loader.rs` line 69): the extension, or `""` when there is none. -/
def extOf (name : String) : String :=
  match lastDotIdx name.toList with
  | some i => String.mk (name.toList.drop (i + 1))
  | none => ""

/-- Index of the last `.` anywhere — `str::rfind('.')`, used by
`infer_class_from_name` and `clean_name` on the (already stem-stripped)
entry name. -/
def rfindDot (s : String) : Option Nat :=
  (List.range s.toList.length).foldl
    (fun acc i => if s.toList.getD i ' ' = '.' then some i else acc) none

/-- Model of `map_extension_to_class` (`loader.rs` lines 270–285).  Note the
fallback arm: `_ => "Folder"`. -/
def mapExtensionToClass (ext : String) : String :=
  if ext = "basepart" then "Part"
  else if ext = "part" then "Part"
  else if ext = "model" then "Model"
  else if ext = "folder" then "Folder"
  else if ext = "script" then "Script"
  else if ext = "localscript" then "LocalScript"
  else if ext = "modulescript" then "ModuleScript"
  else if ext = "gui" then "ScreenGui"
  else if ext = "frame" then "Frame"
  else if ext = "button" then "TextButton"
  else if ext = "label" then "TextLabel"
  else "Folder"

/-- Model of `infer_class_from_name` (`loader.rs` lines 224–255): a recognized dotted
suffix wins; else known service names; else `Folder` for directories and
`Unknown` otherwise. -/
def inferClassFromName (name : String) (isDir : Bool) : String :=
  let byDot : Option String :=
    match rfindDot name with
    | some idx =>
      let ext := String.mk (name.toList.drop (idx + 1))
      let cls := mapExtensionToClass ext
      if cls ≠ "Folder" then some cls else none
    | none => none
  match byDot with
  | some c => c
  | none =>
    if name = "Workspace" then "Workspace"
    else if name = "Lighting" then "Lighting"
    else if name = "ReplicatedStorage" then "ReplicatedStorage"
    else if name = "ReplicatedFirst" then "ReplicatedFirst"
    else if name = "ServerScriptService" then "ServerScriptService"
    else if name = "ServerStorage" then "ServerStorage"
    else if name = "StarterGui" then "StarterGui"
    else if name = "StarterPack" then "StarterPack"
    else if name = "StarterPlayer" then "StarterPlayer"
    else if name = "SoundService" then "SoundService"
    else if isDir then "Folder" else "Unknown"

/-- Model of `clean_name` (`loader.rs` lines 257–268): strip a recognized dotted
suffix. -/
def cleanName (name : String) : String :=
  match rfindDot name with
  | some idx =>
    if mapExtensionToClass (String.mk (name.toList.drop (idx + 1))) ≠ "Folder"
    then String.mk (name.toList.take idx)
    else name
  | none => name

/-- Model of `str::trim_end_matches(pat)`: remove every trailing repetition of the
suffix (fuel-structural; the fuel bounds the number of removals). -/
def trimEndRep : Nat → List Char → List Char → List Char
  | 0, cs, _ => cs
  | fuel + 1, cs, suf =>
    if suf ≠ [] ∧ suf.isSuffixOf cs then
      trimEndRep fuel (cs.take (cs.length - suf.length)) suf
    else cs

def trimEndMatches (s suffix : String) : String :=
  String.mk (trimEndRep s.toList.length s.toList suffix.toList)

def strEndsWith (s suffix : String) : Bool :=
  suffix.toList.isSuffixOf s.toList

/-- Field updates (the Rust code mutates `Instance` in place). -/
def Instance.setChildren : Instance → List Instance → Instance
  | .mk i n c p _ f w ce, cs => .mk i n c p cs f w ce

def Instance.setFullPath : Instance → String → Instance
  | .mk i n c p cs _ w ce, f => .mk i n c p cs f w ce

def Instance.setName : Instance → String → Instance
  | .mk i _ c p cs f w ce, n => .mk i n c p cs f w ce

def Instance.setClassName : Instance → String → Instance
  | .mk i n _ p cs f w ce, c => .mk i n c p cs f w ce

def Instance.setProperties : Instance → List (String × PropertyValue) → Instance
  | .mk i n c _ cs f w ce, p => .mk i n c p cs f w ce

/-- The DSL-merge loop of `load_directory` (`loader.rs` lines 114–136): a
string `ClassName` overrides the class, a string `Name` overrides the name,
and every parsed pair is inserted into the property map.  (The parser's
`Err` branch is unreachable: `many0` cannot fail.) -/
def mergeDslStep (acc : Instance) (kv : String × PropertyValue) : Instance :=
  let acc := if kv.1 = "ClassName" then
      match kv.2 with
      | .string s => acc.setClassName s
      | _ => acc
    else acc
  let acc := if kv.1 = "Name" then
      match kv.2 with
      | .string s => acc.setName s
      | _ => acc
    else acc
  acc.setProperties (insertProp acc.properties kv.1 kv.2)

def mergeDslProps (inst : Instance)
    (props : List (String × PropertyValue)) : Instance :=
  props.foldl mergeDslStep inst

mutual
/-- One iteration of the entry loop of `load_directory` (`loader.rs` lines
51–144), producing the instances contributed by one directory entry
(zero for skipped files, one otherwise).  `fsDir` is the filesystem path of
the containing directory; entry lists are assumed pre-sorted (`sortFs`). -/
def loadEntry (fsDir parentFullPath : String) : FsEntry → List Instance
  | .dir dname entries =>
    let name := fileStem dname
    let pathStr := replaceBackslash (fsDir ++ "/" ++ dname)
    let className := inferClassFromName name true
    let cname := cleanName name
    let currentFullPath := parentFullPath ++ "/" ++ cname
    let inst := (Instance.new cname className pathStr).setFullPath currentFullPath
    [inst.setChildren (loadEntryList entries (fsDir ++ "/" ++ dname) currentFullPath)]
  | .file fname content =>
    let name := fileStem fname
    let pathStr := replaceBackslash (fsDir ++ "/" ++ fname)
    let ext := extOf fname
    if ext = "json" ∨ ext = "" then []
    else if strEndsWith name ".server" ∧ ext = "lua" then
      let cleanN := trimEndMatches name ".server"
      [(Instance.new cleanN "Script" pathStr).setProperties
        (insertProp [] "Source" (.string content))]
    else if strEndsWith name ".local" ∧ ext = "lua" then
      let cleanN := trimEndMatches name ".local"
      [(Instance.new cleanN "LocalScript" pathStr).setProperties
        (insertProp [] "Source" (.string content))]
    else if strEndsWith name ".module" ∧ ext = "lua" then
      let cleanN := trimEndMatches name ".module"
      [(Instance.new cleanN "ModuleScript" pathStr).setProperties
        (insertProp [] "Source" (.string content))]
    else
      let className := mapExtensionToClass ext
      let inst0 := Instance.new name className pathStr
      let inst1 := mergeDslProps inst0 (parseInstanceDsl content).1
      [inst1.setFullPath (parentFullPath ++ "/" ++ inst1.name)]

def loadEntryList : List FsEntry → String → String → List Instance
  | [], _, _ => []
  | e :: es, d, p => loadEntry d p e ++ loadEntryList es d p
end

/-! ## The enrichment pass (`compute_derived_data`, `loader.rs` 152–222)

The Rust code accumulates a min/max pair seeded with `±INFINITY` plus a
`has_bounds` flag; the exact translation carries an `Option Aabbq`
accumulator instead (merging into `none` starts the box), which is
observationally identical. -/

def qmin (a b : ℚ) : ℚ := if a ≤ b then a else b

def qmax (a b : ℚ) : ℚ := if a ≤ b then b else a

def vmin (a b : Vec3q) : Vec3q := ⟨qmin a.x b.x, qmin a.y b.y, qmin a.z b.z⟩

def vmax (a b : Vec3q) : Vec3q := ⟨qmax a.x b.x, qmax a.y b.y, qmax a.z b.z⟩

def mergePointOpt (acc : Option Aabbq) (p : Vec3q) : Option Aabbq :=
  match acc with
  | none => some ⟨p, p⟩
  | some b => some ⟨vmin b.min p, vmax b.max p⟩

def mergeBoxOpt (acc : Option Aabbq) (b : Aabbq) : Option Aabbq :=
  match acc with
  | none => some b
  | some a => some ⟨vmin a.min b.min, vmax a.max b.max⟩

/-- Model of `Size` (`Vector3`), default `(4, 1, 2)` (`loader.rs` lines 160–164). -/
def sizeOfProps (props : List (String × PropertyValue)) : Vec3q :=
  match List.lookup "Size" props with
  | some (.vector3 v) => v
  | _ => ⟨4, 1, 2⟩

/-- The world transform: from `CFrame` (12 components rebuilt column-major,
columns `(c3,c6,c9) (c4,c7,c10) (c5,c8,c11)`, translation `(c0,c1,c2)`),
else from `Position` as translation, else identity
(`loader.rs` lines 166–177). -/
def transformOfProps (props : List (String × PropertyValue)) (p : Vec3q) : Vec3q :=
  match List.lookup "CFrame" props with
  | some (.cframe cf) =>
    let c := fun i => cf.components.getD i 0
    ⟨c 3 * p.x + c 4 * p.y + c 5 * p.z + c 0,
     c 6 * p.x + c 7 * p.y + c 8 * p.z + c 1,
     c 9 * p.x + c 10 * p.y + c 11 * p.z + c 2⟩
  | _ =>
    match List.lookup "Position" props with
    | some (.vector3 v) => ⟨p.x + v.x, p.y + v.y, p.z + v.z⟩
    | _ => p

/-- The eight local corners `±size/2`, in source order
(`loader.rs` lines 179–189). -/
def localCorners (size : Vec3q) : List Vec3q :=
  let hx := size.x / 2
  let hy := size.y / 2
  let hz := size.z / 2
  [⟨-hx, -hy, -hz⟩, ⟨hx, -hy, -hz⟩, ⟨-hx, hy, -hz⟩, ⟨hx, hy, -hz⟩,
   ⟨-hx, -hy, hz⟩, ⟨hx, -hy, hz⟩, ⟨-hx, hy, hz⟩, ⟨hx, hy, hz⟩]

/-- The part's own box: present iff the class is `Part` or `BasePart`, the
axis-aligned hull of the eight transformed corners
(`loader.rs` lines 158–197). -/
def selfPartBounds (cls : String)
    (props : List (String × PropertyValue)) : Option Aabbq :=
  if cls = "Part" ∨ cls = "BasePart" then
    (localCorners (sizeOfProps props)).foldl
      (fun acc pt => mergePointOpt acc (transformOfProps props pt)) none
  else none

def midpoint (b : Aabbq) : Vec3q :=
  ⟨(b.min.x + b.max.x) / 2, (b.min.y + b.max.y) / 2, (b.min.z + b.max.z) / 2⟩

/-- The child-aggregation step of `compute_derived_data` (`loader.rs` lines
199–208): merge a child's bounds when the recursive call produced some. -/
def childMergeStep (acc : Option Aabbq) (pair : Instance × Option Aabbq) :
    Option Aabbq :=
  match pair.2 with
  | some cb => mergeBoxOpt acc cb
  | none => acc

mutual
/-- Model of `compute_derived_data` (`loader.rs` lines 152–222): post-order; returns
the enriched instance and the bounds passed up to the parent.  When no
bounds exist the fields are left untouched (the flag `has_bounds` is
false). -/
def computeDerivedData : Instance → Instance × Option Aabbq
  | .mk id n cls props cs fp wb ce =>
    let own := selfPartBounds cls props
    let recList := computeDerivedList cs
    let b := recList.foldl childMergeStep own
    match b with
    | some bb =>
      (.mk id n cls props (recList.map Prod.fst) fp (some bb) (some (midpoint bb)),
       some bb)
    | none => (.mk id n cls props (recList.map Prod.fst) fp wb ce, none)

def computeDerivedList : List Instance → List (Instance × Option Aabbq)
  | [] => []
  | c :: cs => computeDerivedData c :: computeDerivedList cs
end

/-- Locate the `game/` directory among the project root's entries
(`game_path.exists()` followed by `read_dir`; a missing — or non-directory —
`game` collapses to the missing-project error). -/
def findGameEntries (rootEntries : List FsEntry) : Option (List FsEntry) :=
  rootEntries.findSome? fun e =>
    match e with
    | .dir nm es => if nm = "game" then some es else none
    | _ => none

/-- Model of `load_project` (`loader.rs` lines 7–39): require a `game/` directory
(else the missing-project error, modelled as `none`), build the root
(`Instance::new("DataModel", "DataModel", "game")`, `full_path = "game"`),
load its sorted entries, then run the enrichment pass.  `rootEntries` is
the listing of the project root; nested listings are sorted up front by
`sortFs`. -/
def loadProject (rootPath : String) (rootEntries : List FsEntry) :
    Option Instance :=
  match findGameEntries rootEntries with
  | none => none
  | some gameEntries =>
    let sorted := sortByName (sortFsList gameEntries)
    let dm := ((Instance.new "DataModel" "DataModel" "game").setFullPath
        "game").setChildren
      (loadEntryList sorted (rootPath ++ "/game") "game")
    some (computeDerivedData dm).1

mutual
/-- All nodes of the tree, depth first, the root first. -/
def Instance.flatten : Instance → List Instance
  | .mk i n c p cs f w ce => .mk i n c p cs f w ce :: Instance.flattenRest cs

def Instance.flattenRest : List Instance → List Instance
  | [] => []
  | c :: cs => Instance.flatten c ++ Instance.flattenRest cs
end

/-! ## The diff engine (`diff.rs`)

`compare_worlds` flattens both trees into path-keyed maps, then classifies
added/removed paths and, for common paths, property-level and spatial
changes.  Property values are stringified with the derived `Debug`
formatter, modelled by `fmtValue` (rational rendering stands in for Rust's
shortest-roundtrip float printing; no claim depends on the digits).
The Euclidean-distance threshold `dist > 0.001` is modelled exactly as
`dist² > (1/1000)²`. -/

/-- HashMap-style insert for any association list. -/
def insertAssoc {α : Type} (m : List (String × α)) (k : String) (v : α) :
    List (String × α) :=
  if m.any (fun kv => kv.1 = k) then
    m.map (fun kv => if kv.1 = k then (k, v) else kv)
  else m ++ [(k, v)]

def fmtQ (q : ℚ) : String :=
  if q.den = 1 then toString q.num ++ ".0"
  else toString q.num ++ "/" ++ toString q.den

def fmtVec3 (v : Vec3q) : String :=
  "Vec3Wrapper \x7b x: " ++ fmtQ v.x ++ ", y: " ++ fmtQ v.y ++
    ", z: " ++ fmtQ v.z ++ " \x7d"

/-- Model of `format!("{:?}", value)` on a `PropertyValue` (derived `Debug`). -/
def fmtValue : PropertyValue → String
  | .string s => "String(\"" ++ s ++ "\")"
  | .bool b => "Bool(" ++ (if b then "true" else "false") ++ ")"
  | .number n => "Number(" ++ fmtQ n ++ ")"
  | .vector3 v => "Vector3(" ++ fmtVec3 v ++ ")"
  | .cframe c =>
    "CFrame(CFrameWrapper \x7b position: " ++ fmtVec3 c.position ++
      ", components: [" ++ String.intercalate ", " (c.components.map fmtQ) ++
      "] \x7d)"
  | .color3 c =>
    "Color3(Color3Wrapper \x7b r: " ++ fmtQ c.r ++ ", g: " ++ fmtQ c.g ++
      ", b: " ++ fmtQ c.b ++ " \x7d)"
  | .udim2 u =>
    "UDim2(UDim2Wrapper \x7b xs: " ++ fmtQ u.xs ++ ", xo: " ++ toString u.xo ++
      ", ys: " ++ fmtQ u.ys ++ ", yo: " ++ toString u.yo ++ " \x7d)"
  | .enum s => "Enum(\"" ++ s ++ "\")"

structure PropertyChange where
  old : String
  new : String
  deriving DecidableEq, Repr

/-- Model of `SpatialChange`; the `displacement` field (a Euclidean
distance in the code) is carried as its square, `displacementSq`. -/
structure SpatialChange where
  old_center : Option Vec3q
  new_center : Option Vec3q
  displacementSq : ℚ
  deriving DecidableEq, Repr

structure InstanceDiff where
  path : String
  property_changes : List (String × PropertyChange)
  spatial_change : Option SpatialChange
  deriving DecidableEq, Repr

structure DiffChanges where
  added_instances : List String
  removed_instances : List String
  modified_instances : List InstanceDiff
  deriving DecidableEq, Repr

structure DiffReport where
  schema_version : String
  status : String
  changes : DiffChanges
  deriving DecidableEq, Repr

def distSq (a b : Vec3q) : ℚ :=
  (a.x - b.x) ^ 2 + (a.y - b.y) ^ 2 + (a.z - b.z) ^ 2

/-- One iteration of the property loop (`diff.rs` lines 77–92) for the pair
`kv` drawn from the new side's properties: a differing common property
yields `(old, new)` stringifications; a new-only property yields
`old = "null"`; an unchanged property yields nothing.  The loop inserts
into a fresh map under keys that are pairwise distinct (they come from one
HashMap), so the accumulated map is exactly the `filterMap`. -/
def propertyChangeAt (oldProps : List (String × PropertyValue))
    (kv : String × PropertyValue) : Option (String × PropertyChange) :=
  match List.lookup kv.1 oldProps with
  | some oldV =>
    if kv.2 ≠ oldV then some (kv.1, ⟨fmtValue oldV, fmtValue kv.2⟩) else none
  | none => some (kv.1, ⟨"null", fmtValue kv.2⟩)

def propertyChanges (oldProps newProps : List (String × PropertyValue)) :
    List (String × PropertyChange) :=
  newProps.filterMap (propertyChangeAt oldProps)

/-- The spatial check (`diff.rs` lines 94–114): when the two centers differ,
the distance (both present; `0.0` otherwise) is compared against the
`0.001` epsilon; only a strictly larger displacement records a change. -/
def spatialChange (oldC newC : Option Vec3q) : Option SpatialChange :=
  if oldC ≠ newC then
    let dsq : ℚ := match oldC, newC with
      | some o, some n => distSq o n
      | _, _ => 0
    if dsq > 1 / 1000000 then some ⟨oldC, newC, dsq⟩ else none
  else none

/-- The body of the modification loop for one path present on both sides
(`diff.rs` lines 68–115). -/
def instanceDiffAt (path : String) (oldI newI : Instance) : InstanceDiff :=
  { path := path
    property_changes := propertyChanges oldI.properties newI.properties
    spatial_change := spatialChange oldI.center newI.center }

/-- Model of `flatten_instance` (`diff.rs` lines 129–134): insert every node under
its `full_path`, the root first, children depth-first (later duplicates
overwrite). -/
def pathMap (i : Instance) : List (String × Instance) :=
  (Instance.flatten i).foldl (fun m n => insertAssoc m n.full_path n) []

/-- Model of `compare_worlds` (`diff.rs` lines 40–127).  HashMap iteration is
modelled as association-list order (the list orders are unspecified in the
code; no claim depends on them). -/
def compareWorlds (old new : Instance) : DiffReport :=
  let oldMap := pathMap old
  let newMap := pathMap new
  let added := (newMap.filter
    (fun kv => !(oldMap.any (fun e => e.1 = kv.1)))).map (fun kv => kv.1)
  let removed := (oldMap.filter
    (fun kv => !(newMap.any (fun e => e.1 = kv.1)))).map (fun kv => kv.1)
  let modified := newMap.filterMap fun kv =>
    match List.lookup kv.1 oldMap with
    | some oldInst =>
      let d := instanceDiffAt kv.1 oldInst kv.2
      if d.property_changes ≠ [] ∨ d.spatial_change ≠ none then some d
      else none
    | none => none
  let status := if added ≠ [] ∨ removed ≠ [] ∨ modified ≠ [] then "changed"
    else "unchanged"
  ⟨"1.0", status, ⟨added, removed, modified⟩⟩

/-! ## Serialization order (`serde_json::to_string_pretty`, `run.rs` line 73)

`world.json` serializes each instance's `properties` in the iteration order
of the backing `std::collections::HashMap`, which is randomized per process
(`RandomState`).  The model renders the property object for a *given* key
order; a run of the program corresponds to some permutation of the property
list.  (The rendering is a compact stand-in for serde's pretty printer: it
preserves exactly what matters, the key order of the emitted object.) -/

def jsonOfValue : PropertyValue → String
  | .string s => "\"" ++ s ++ "\""
  | .bool b => if b then "true" else "false"
  | .number n => fmtQ n
  | .vector3 v =>
    "\x7b\"x\": " ++ fmtQ v.x ++ ", \"y\": " ++ fmtQ v.y ++
      ", \"z\": " ++ fmtQ v.z ++ "\x7d"
  | .cframe c =>
    "\x7b\"position\": " ++
      ("\x7b\"x\": " ++ fmtQ c.position.x ++ ", \"y\": " ++ fmtQ c.position.y ++
        ", \"z\": " ++ fmtQ c.position.z ++ "\x7d") ++
      ", \"components\": [" ++
      String.intercalate ", " (c.components.map fmtQ) ++ "]\x7d"
  | .color3 c =>
    "\x7b\"r\": " ++ fmtQ c.r ++ ", \"g\": " ++ fmtQ c.g ++
      ", \"b\": " ++ fmtQ c.b ++ "\x7d"
  | .udim2 u =>
    "\x7b\"xs\": " ++ fmtQ u.xs ++ ", \"xo\": " ++ toString u.xo ++
      ", \"ys\": " ++ fmtQ u.ys ++ ", \"yo\": " ++ toString u.yo ++ "\x7d"
  | .enum s => "\"" ++ s ++ "\""

/-- The bytes of the `"properties"` JSON object, for the key order given by
the list. -/
def jsonOfProps (props : List (String × PropertyValue)) : String :=
  "\x7b" ++ String.intercalate ", "
    (props.map fun kv => "\"" ++ kv.1 ++ "\": " ++ jsonOfValue kv.2) ++ "\x7d"

/-! ## The analysis adapter (`analysis.rs`)

The external analyzer is an opaque process: the environment provides its
availability and, per analyzed file, the lines of its combined
stdout/stderr.  `parse_luau_line` is embedded in full. -/

structure Diagnostic where
  file : String
  line : Nat
  message : String
  severity : String
  code : Option String
  hint : Option String
  deriving DecidableEq, Repr

structure DiagnosticsReport where
  errors : List Diagnostic
  schema_version : String
  deriving DecidableEq, Repr

/-- Model of `str::splitn(n, ':')`: split into at most `n` pieces. -/
def splitnChar : Nat → Char → List Char → List (List Char)
  | 0, _, _ => []
  | 1, _, cs => [cs]
  | n + 2, sep, cs =>
    let pre := cs.takeWhile (fun c => c ≠ sep)
    match cs.dropWhile (fun c => c ≠ sep) with
    | [] => [pre]
    | _ :: rest => pre :: splitnChar (n + 1) sep rest

def isRustSpace (c : Char) : Bool :=
  c = ' ' || c = '\t' || c = '\n' || c = '\r'

/-- Model of `str::trim`. -/
def trimStr (s : String) : String :=
  String.mk (((s.toList.dropWhile isRustSpace).reverse.dropWhile
    isRustSpace).reverse)

/-- Model of `str::parse::<usize>`: optional `+`, then one or more digits. -/
def parseUsize (s : String) : Option Nat :=
  let cs := match s.toList with
    | '+' :: t => t
    | l => l
  if cs ≠ [] ∧ cs.all isAsciiDigit then some (natOfDigits cs) else none

/-- Model of `str::find(pat)` for a substring pattern (char index = byte index on
ASCII). -/
def findSub : List Char → List Char → Option Nat
  | [], needle => if needle = [] then some 0 else none
  | c :: rest, needle =>
    if needle.isPrefixOf (c :: rest) then some 0
    else (findSub rest needle).map (· + 1)

def containsSub (hay needle : String) : Bool :=
  (findSub hay.toList needle.toList).isSome

/-- The characters trimmed around a hint:  `'`, `"`, `?`, `.`
(`analysis.rs` line 137). -/
def isHintTrimChar (c : Char) : Bool :=
  c = Char.ofNat 39 || c = '"' || c = '?' || c = '.'

/-- Model of `str::trim_matches(closure)`. -/
def trimMatchesHint (s : String) : String :=
  String.mk (((s.toList.dropWhile isHintTrimChar).reverse.dropWhile
    isHintTrimChar).reverse)

/-- Model of `parse_luau_line` (`analysis.rs` lines 97–154). -/
def parseLuauLine (line filepath : String) : Option Diagnostic :=
  let parts := (splitnChar 4 ':' line.toList).map String.mk
  if parts.length ≥ 3 then
    match parseUsize (trimStr (parts.getD 1 "")) with
    | none => none
    | some lineNum =>
      let msgIdx := if (parseUsize (trimStr (parts.getD 2 ""))).isSome
        then 3 else 2
      if parts.length > msgIdx then
        let raw := trimStr (String.intercalate ":" (parts.drop msgIdx))
        let code := if containsSub raw "not found in class" then
            some "UnknownProperty"
          else if containsSub raw "Type mismatch" then some "TypeMismatch"
          else none
        let hint := match findSub raw.toList "Did you mean".toList with
          | some idx => some (trimMatchesHint (String.mk (raw.toList.drop idx)))
          | none => none
        some ⟨filepath, lineNum, raw, "error", code, hint⟩
      else none
  else none

mutual
/-- The `WalkDir` collection of `*.lua` paths under `game/`
(`analysis.rs` lines 52–62): any entry whose name has extension `lua`. -/
def collectLua (fsDir : String) : FsEntry → List String
  | .file n _ => if extOf n = "lua" then [fsDir ++ "/" ++ n] else []
  | .dir n es =>
    (if extOf n = "lua" then [fsDir ++ "/" ++ n] else []) ++
      collectLuaList es (fsDir ++ "/" ++ n)

def collectLuaList : List FsEntry → String → List String
  | [], _ => []
  | e :: es, d => collectLua d e ++ collectLuaList es d
end

/-- The analyzer as seen by `run_analysis`: whether a `luau-analyze`
binary can be located (PATH or project root, collapsed to one flag), and
the combined stdout/stderr lines it prints for a given file argument. -/
structure AnalyzerEnv where
  available : Bool
  outputLines : String → List String

/-- Model of `run_analysis` (`analysis.rs` lines 31–95), returning the list of files
the analyzer is actually invoked on together with the result.  With
`skip_analysis` the empty report is returned immediately — before the
binary is even looked for. -/
def runAnalysis (rootPath : String) (rootEntries : List FsEntry)
    (skipAnalysis : Bool) (env : AnalyzerEnv) :
    List String × Except String DiagnosticsReport :=
  if skipAnalysis then ([], .ok ⟨[], "1.0"⟩)
  else if !env.available then
    ([], .error "`luau-analyze` not found in PATH or current directory. Install it or use --relaxed to skip.")
  else
    let luaFiles := match findGameEntries rootEntries with
      | some es => collectLuaList es (rootPath ++ "/game")
      | none => []
    (luaFiles,
     .ok ⟨luaFiles.flatMap fun f =>
        (env.outputLines f).filterMap fun l => parseLuauLine l f,
      "1.0"⟩)

/-! ## The pipeline driver (`run.rs`)

`run_project` is modelled as a pure function from the project, the
analyzer environment, the previous world and the renderer's success flag
to an outcome: how the process ends, which artifacts were written, which
files the analyzer ran on, and whether the renderer was invoked. -/

structure RunOptions where
  render : Bool
  relaxed : Bool
  diff : Bool
  debug_bounds : Bool
  debug_origin : Bool
  debug_axes : Bool

inductive RunOutcomeKind where
  | exited (code : Nat)
  | completed
  | failed (msg : String)
  deriving DecidableEq, Repr

/-- What lands in `results/diagnostics.json`: either a serialized
`DiagnosticsReport`, or the literal stub written in the relaxed error
branch (`run.rs` line 104). -/
inductive DiagArtifact where
  | report (r : DiagnosticsReport)
  | stub
  deriving DecidableEq, Repr

structure RunOutcome where
  kind : RunOutcomeKind
  wroteWorld : Bool
  wroteDiff : Bool
  wroteDiagnostics : Option DiagArtifact
  analyzedFiles : List String
  renderInvoked : Bool
  deriving Repr

/-- Model of `run_project` (`run.rs` lines 48–128): load (fatal on failure), write
`world.json`, optionally diff against the previous world, run the analysis
with `skip_analysis = options.relaxed`, gate on errors in strict mode
(`process::exit(1)` before any render), then render if requested. -/
def runProject (opts : RunOptions) (rootPath : String)
    (rootEntries : List FsEntry) (env : AnalyzerEnv)
    (oldWorld : Option Instance) (renderOk : Bool) : RunOutcome :=
  match loadProject rootPath rootEntries with
  | none => ⟨.failed "Failed to load project structure", false, false, none, [], false⟩
  | some _dm =>
    let wroteDiffFlag := opts.diff && oldWorld.isSome
    let pr := runAnalysis rootPath rootEntries opts.relaxed env
    let files := pr.1
    let finish := fun (dw : Option DiagArtifact) =>
      if opts.render then
        if renderOk then RunOutcome.mk .completed true wroteDiffFlag dw files true
        else RunOutcome.mk (.failed "Failed to render scene") true wroteDiffFlag
          dw files true
      else RunOutcome.mk .completed true wroteDiffFlag dw files false
    match pr.2 with
    | .ok diagnostics =>
      if ¬opts.relaxed ∧ diagnostics.errors ≠ [] then
        RunOutcome.mk (.exited 1) true wroteDiffFlag (some (.report diagnostics))
          files false
      else finish (some (.report diagnostics))
    | .error _ =>
      if ¬opts.relaxed then
        RunOutcome.mk (.exited 1) true wroteDiffFlag none files false
      else finish (some .stub)


/-! ## Specification-side definitions

Definitions written from the specification's wording, used to state the
claims as refinements of the code-side definitions above. -/

/-- The hull of two optional boxes (the spec's "componentwise min/max
hull"; a missing box is the neutral element). -/
def optHull : Option Aabbq → Option Aabbq → Option Aabbq
  | none, b => b
  | some a, none => some a
  | some a, some b => some ⟨vmin a.min b.min, vmax a.max b.max⟩

mutual
/-- Whether the subtree rooted at an instance contains a `Part`/`BasePart`
(the spec's "instances with no Part in their subtree"). -/
def subtreeHasPart : Instance → Bool
  | .mk _ _ cls _ cs _ _ _ => (cls = "Part" || cls = "BasePart") || listHasPart cs

def listHasPart : List Instance → Bool
  | [] => false
  | c :: cs => subtreeHasPart c || listHasPart cs
end

mutual
/-- The filesystem path (backslashes replaced) that seeds the id of every
instance the loader creates for this entry, in depth-first order: one seed
per directory or non-skipped file.  This is the spec-side description of
the id seeds actually used by `load_directory`. -/
def entrySeedPaths (fsDir : String) : FsEntry → List String
  | .dir dname entries =>
    replaceBackslash (fsDir ++ "/" ++ dname) ::
      entrySeedPathsList entries (fsDir ++ "/" ++ dname)
  | .file fname _ =>
    if extOf fname = "json" ∨ extOf fname = "" then []
    else [replaceBackslash (fsDir ++ "/" ++ fname)]

def entrySeedPathsList : List FsEntry → String → List String
  | [], _ => []
  | e :: es, d => entrySeedPaths d e ++ entrySeedPathsList es d
end

/-! ## Concrete fixtures

Small projects used as failing inputs and witnesses; `brickDsl` is the
spec's §8 scenario 1, `fsScript` its scenario 4. -/

def fsScript : List FsEntry :=
  [.dir "game" [.dir "ServerScriptService" [.file "main.server.lua" "print(\"hi\")"]]]

def brickDsl : String :=
  "ClassName = Part\nSize = Vector3.new(4,1,2)\nCFrame = CFrame.new(0,0.5,0)\nColor = Color3.fromRGB(255,0,0)"

def fsBrick : List FsEntry :=
  [.dir "game" [.dir "Workspace" [.file "Brick.part" brickDsl]]]

def fsWeird : List FsEntry :=
  [.dir "game" [.dir "Workspace" [.file "Weird.xyz" ""]]]

def dmScript : Instance := (loadProject "proj" fsScript).getD default

def dmBrick : Instance := (loadProject "proj" fsBrick).getD default

def dmWeird : Instance := (loadProject "proj" fsWeird).getD default

def scriptInst : Instance :=
  (dmScript.children.getD 0 default).children.getD 0 default

def brickInst : Instance :=
  (dmBrick.children.getD 0 default).children.getD 0 default

def weirdInst : Instance :=
  (dmWeird.children.getD 0 default).children.getD 0 default

/-- An analyzer environment in which `luau-analyze` is installed and
reports a type error on every file it is given. -/
def noisyEnv : AnalyzerEnv :=
  { available := true
    outputLines := fun _ => ["main.server.lua:1: Type mismatch"] }

/-- Driver options: strict mode with rendering requested. -/
def strictRenderOpts : RunOptions :=
  ⟨true, false, false, false, false, false⟩

/-- Driver options: relaxed mode with rendering requested. -/
def relaxedRenderOpts : RunOptions :=
  ⟨true, true, false, false, false, false⟩

/-- The Brick node as an element of the flattened enriched tree (index 2 of
`[DataModel, Workspace, Brick]`). -/
def brickNode : Instance := (Instance.flatten dmBrick).getD 2 default

/-- The diagnostic `parse_luau_line` extracts from `noisyEnv`'s output line
for the script of `fsScript`. -/
def scriptDiag : Diagnostic :=
  ⟨"proj/game/ServerScriptService/main.server.lua", 1, "Type mismatch",
   "error", some "TypeMismatch", none⟩

/-! ## Helper lemmas -/

theorem getD_mem_of_lt {α : Type} {l : List α} {i : Nat} (h : i < l.length)
    (d : α) : l.getD i d ∈ l := by
  induction l generalizing i with
  | nil => simp at h
  | cons a t ih =>
    cases i with
    | zero => simp [List.getD]
    | succ j =>
      have hj : j < t.length := Nat.lt_of_succ_lt_succ h
      simpa [List.getD] using List.mem_cons_of_mem a (ih hj)

theorem flatten_cons (u : Instance) :
    Instance.flatten u = u :: Instance.flattenRest u.children := by
  cases u
  simp [Instance.flatten, Instance.children]

theorem flattenRest_append (l1 l2 : List Instance) :
    Instance.flattenRest (l1 ++ l2) =
      Instance.flattenRest l1 ++ Instance.flattenRest l2 := by
  induction l1 with
  | nil => simp [Instance.flattenRest]
  | cons c cs ih => simp [Instance.flattenRest, ih]

theorem mem_flattenRest {n : Instance} {l : List Instance} :
    n ∈ Instance.flattenRest l ↔ ∃ c ∈ l, n ∈ Instance.flatten c := by
  induction l with
  | nil => simp [Instance.flattenRest]
  | cons c cs ih => simp [Instance.flattenRest, ih]

theorem self_mem_flatten (u : Instance) : u ∈ Instance.flatten u := by
  rw [flatten_cons]
  exact List.mem_cons_self u _

/-! Setter bookkeeping. -/

theorem setChildren_fields (a : Instance) (cs : List Instance) :
    (a.setChildren cs).id = a.id ∧ (a.setChildren cs).name = a.name ∧
    (a.setChildren cs).class_name = a.class_name ∧
    (a.setChildren cs).properties = a.properties ∧
    (a.setChildren cs).children = cs ∧
    (a.setChildren cs).full_path = a.full_path ∧
    (a.setChildren cs).world_bounds = a.world_bounds ∧
    (a.setChildren cs).center = a.center := by
  cases a
  simp [Instance.setChildren, Instance.id, Instance.name, Instance.class_name,
    Instance.properties, Instance.children, Instance.full_path,
    Instance.world_bounds, Instance.center]

theorem mergeDslStep_fields (acc : Instance) (kv : String × PropertyValue) :
    (mergeDslStep acc kv).id = acc.id ∧
    (mergeDslStep acc kv).children = acc.children ∧
    (mergeDslStep acc kv).full_path = acc.full_path ∧
    (mergeDslStep acc kv).world_bounds = acc.world_bounds ∧
    (mergeDslStep acc kv).center = acc.center := by
  obtain ⟨i, n, c, p, cs, f, w, ce⟩ := acc
  obtain ⟨k, v⟩ := kv
  by_cases h1 : k = "ClassName" <;> by_cases h2 : k = "Name" <;> cases v <;>
    simp [mergeDslStep, h1, h2, Instance.setClassName, Instance.setName,
      Instance.setProperties, Instance.id, Instance.children,
      Instance.full_path, Instance.world_bounds, Instance.center,
      Instance.properties]

theorem mergeDslProps_fields (props : List (String × PropertyValue))
    (a : Instance) :
    (mergeDslProps a props).id = a.id ∧
    (mergeDslProps a props).children = a.children ∧
    (mergeDslProps a props).full_path = a.full_path ∧
    (mergeDslProps a props).world_bounds = a.world_bounds ∧
    (mergeDslProps a props).center = a.center := by
  induction props generalizing a with
  | nil => exact ⟨rfl, rfl, rfl, rfl, rfl⟩
  | cons kv rest ih =>
    have hstep := mergeDslStep_fields a kv
    have hrest := ih (mergeDslStep a kv)
    simp only [mergeDslProps, List.foldl_cons] at *
    exact ⟨hrest.1.trans hstep.1, hrest.2.1.trans hstep.2.1,
      hrest.2.2.1.trans hstep.2.2.1, hrest.2.2.2.1.trans hstep.2.2.2.1,
      hrest.2.2.2.2.trans hstep.2.2.2.2⟩

theorem cdl_map (cs : List Instance) :
    computeDerivedList cs = cs.map computeDerivedData := by
  induction cs with
  | nil => simp [computeDerivedList]
  | cons c rest ih => simp [computeDerivedList, ih]

theorem childMergeStep_eq_optHull (acc : Option Aabbq)
    (pair : Instance × Option Aabbq) :
    childMergeStep acc pair = optHull acc pair.2 := by
  obtain ⟨_, ob⟩ := pair
  cases ob <;> cases acc <;> rfl

/-- The full shape of one `compute_derived_data` node. -/
theorem cdd_mk (id : List Nat) (nm cls : String)
    (props : List (String × PropertyValue)) (cs : List Instance)
    (fp : String) (wb : Option Aabbq) (ce : Option Vec3q) :
    computeDerivedData (.mk id nm cls props cs fp wb ce) =
      ((.mk id nm cls props (cs.map (fun c => (computeDerivedData c).1)) fp
          (match (cs.map (fun c => (computeDerivedData c).2)).foldl optHull
              (selfPartBounds cls props) with
           | some bb => some bb
           | none => wb)
          (match (cs.map (fun c => (computeDerivedData c).2)).foldl optHull
              (selfPartBounds cls props) with
           | some bb => some (midpoint bb)
           | none => ce)),
       (cs.map (fun c => (computeDerivedData c).2)).foldl optHull
         (selfPartBounds cls props)) := by
  have hfold :
      (computeDerivedList cs).foldl childMergeStep (selfPartBounds cls props) =
        (cs.map (fun c => (computeDerivedData c).2)).foldl optHull
          (selfPartBounds cls props) := by
    rw [cdl_map, List.foldl_map, List.foldl_map]
    simp only [childMergeStep_eq_optHull]
  have hmap : (computeDerivedList cs).map Prod.fst =
      cs.map (fun c => (computeDerivedData c).1) := by
    rw [cdl_map, List.map_map]
    rfl
  simp only [computeDerivedData, hfold, hmap]
  cases hb : (cs.map (fun c => (computeDerivedData c).2)).foldl optHull
      (selfPartBounds cls props) <;> simp

theorem mergePointOpt_isSome (a : Option Aabbq) (p : Vec3q) :
    (mergePointOpt a p).isSome = true := by
  cases a <;> rfl

theorem selfPartBounds_isSome (cls : String)
    (props : List (String × PropertyValue)) :
    (selfPartBounds cls props).isSome =
      (cls = "Part" || cls = "BasePart") := by
  by_cases h : cls = "Part" ∨ cls = "BasePart"
  · have hb : (cls = "Part" || cls = "BasePart") = true := by
      rcases h with h | h <;> simp [h]
    rw [hb]
    simp only [selfPartBounds, if_pos h, localCorners, List.foldl_cons,
      List.foldl_nil]
    exact mergePointOpt_isSome _ _
  · have hb : (cls = "Part" || cls = "BasePart") = false := by
      push_neg at h
      simp [h.1, h.2]
    rw [hb]
    simp [selfPartBounds, if_neg h]

theorem optHull_isSome (a b : Option Aabbq) :
    (optHull a b).isSome = (a.isSome || b.isSome) := by
  cases a <;> cases b <;> rfl

theorem foldl_optHull_isSome (l : List (Option Aabbq)) (a : Option Aabbq) :
    ((l.foldl optHull a).isSome) = (a.isSome || l.any Option.isSome) := by
  induction l generalizing a with
  | nil => simp
  | cons b rest ih =>
    simp only [List.foldl_cons, List.any_cons, ih, optHull_isSome,
      Bool.or_assoc]

theorem listHasPart_any (cs : List Instance) :
    listHasPart cs = cs.any subtreeHasPart := by
  induction cs with
  | nil => rfl
  | cons c rest ih => simp [listHasPart, ih]

theorem subtreeHasPart_mk (id : List Nat) (nm cls : String)
    (props : List (String × PropertyValue)) (cs : List Instance)
    (fp : String) (wb : Option Aabbq) (ce : Option Vec3q) :
    subtreeHasPart (.mk id nm cls props cs fp wb ce) =
      ((cls = "Part" || cls = "BasePart") || cs.any subtreeHasPart) := by
  rw [subtreeHasPart, listHasPart_any]

theorem any_map_comp {α β : Type} (cs : List α) (f : α → β) (p : β → Bool) :
    (cs.map f).any p = cs.any (fun x => p (f x)) := by
  induction cs with
  | nil => rfl
  | cons c rest ih => simp [ih]

theorem any_congr_mem {α : Type} (cs : List α) (f g : α → Bool)
    (h : ∀ x ∈ cs, f x = g x) : cs.any f = cs.any g := by
  induction cs with
  | nil => rfl
  | cons c rest ih =>
    simp only [List.any_cons, h c (List.mem_cons_self c rest)]
    rw [ih fun x hx => h x (List.mem_cons_of_mem c hx)]

/-- The bounds passed up by `compute_derived_data` exist exactly when the
subtree contains a Part. -/
theorem cdd_isSome_eq_hasPart (t : Instance) :
    ((computeDerivedData t).2).isSome = subtreeHasPart t := by
  induction t using instanceInduction with
  | _ i n c p cs f w ce ih =>
    rw [cdd_mk, subtreeHasPart_mk]
    simp only [foldl_optHull_isSome, selfPartBounds_isSome]
    congr 1
    rw [any_map_comp]
    exact any_congr_mem _ _ _ fun x hx => ih x hx

/-- Enrichment does not change which subtrees contain Parts. -/
theorem subtreeHasPart_cdd (t : Instance) :
    subtreeHasPart (computeDerivedData t).1 = subtreeHasPart t := by
  induction t using instanceInduction with
  | _ i n c p cs f w ce ih =>
    rw [cdd_mk]
    simp only [subtreeHasPart_mk]
    congr 1
    rw [any_map_comp]
    exact any_congr_mem _ _ _ fun x hx => ih x hx

theorem cdd_snd_eq (c : Instance) :
    (computeDerivedData c).2 =
      (c.children.map (fun x => (computeDerivedData x).2)).foldl optHull
        (selfPartBounds c.class_name c.properties) := by
  obtain ⟨i, n, cl, p, cs, f, w, ce⟩ := c
  rw [cdd_mk]
  simp [Instance.children, Instance.class_name, Instance.properties]

theorem cdd_fst_children (c : Instance) :
    (computeDerivedData c).1.children =
      c.children.map (fun x => (computeDerivedData x).1) := by
  obtain ⟨i, n, cl, p, cs, f, w, ce⟩ := c
  rw [cdd_mk]
  simp [Instance.children]

theorem cdd_fst_class_name (c : Instance) :
    (computeDerivedData c).1.class_name = c.class_name := by
  obtain ⟨i, n, cl, p, cs, f, w, ce⟩ := c
  rw [cdd_mk]
  simp [Instance.class_name]

theorem cdd_fst_properties (c : Instance) :
    (computeDerivedData c).1.properties = c.properties := by
  obtain ⟨i, n, cl, p, cs, f, w, ce⟩ := c
  rw [cdd_mk]
  simp [Instance.properties]

theorem cdd_fst_world_bounds (c : Instance) (h : c.world_bounds = none) :
    (computeDerivedData c).1.world_bounds = (computeDerivedData c).2 := by
  obtain ⟨i, n, cl, p, cs, f, w, ce⟩ := c
  have hw : w = none := h
  subst hw
  rw [cdd_mk]
  cases (cs.map (fun x => (computeDerivedData x).2)).foldl optHull
      (selfPartBounds cl p) <;>
    simp [Instance.world_bounds]

theorem cdd_fst_center (c : Instance) (h : c.center = none) :
    (computeDerivedData c).1.center =
      ((computeDerivedData c).2).map midpoint := by
  obtain ⟨i, n, cl, p, cs, f, w, ce⟩ := c
  have hc : ce = none := h
  subst hc
  rw [cdd_mk]
  cases (cs.map (fun x => (computeDerivedData x).2)).foldl optHull
      (selfPartBounds cl p) <;>
    simp [Instance.center]

/-- The enrichment invariant claimed by the specification, for one tree all
of whose nodes start with empty enrichment fields (as loaded trees do):
every node of the enriched tree carries the hull of its own part box and
its children's bounds, the midpoint as center, and bounds exactly when a
Part lives in its subtree. -/
theorem cdd_spec (t : Instance)
    (hclean : ∀ m ∈ Instance.flatten t,
      m.world_bounds = none ∧ m.center = none) :
    ∀ n ∈ Instance.flatten (computeDerivedData t).1,
      n.world_bounds = (n.children.map Instance.world_bounds).foldl optHull
          (selfPartBounds n.class_name n.properties) ∧
      n.center = n.world_bounds.map midpoint ∧
      n.world_bounds.isSome = subtreeHasPart n := by
  induction t using instanceInduction with
  | _ i nm cls props cs fp wb ce ih =>
    intro n hn
    set t : Instance := .mk i nm cls props cs fp wb ce with ht
    have hclean_child : ∀ c ∈ cs, ∀ m ∈ Instance.flatten c,
        m.world_bounds = none ∧ m.center = none := by
      intro c hc m hm
      refine hclean m ?_
      rw [ht, flatten_cons]
      exact List.mem_cons_of_mem _ (mem_flattenRest.mpr ⟨c, hc, hm⟩)
    have hroot_clean : t.world_bounds = none ∧ t.center = none :=
      hclean t (self_mem_flatten t)
    rw [flatten_cons] at hn
    rcases List.mem_cons.mp hn with hn | hn
    · -- n is the enriched root
      subst hn
      have hwbmap : (computeDerivedData t).1.children.map Instance.world_bounds =
          cs.map (fun c => (computeDerivedData c).2) := by
        rw [cdd_fst_children, List.map_map]
        refine List.map_congr_left ?_
        intro c hc
        have hcw : c.world_bounds = none :=
          (hclean_child c hc c (self_mem_flatten c)).1
        simpa [Function.comp] using cdd_fst_world_bounds c hcw
      have hwb0 : (computeDerivedData t).1.world_bounds =
          (computeDerivedData t).2 :=
        cdd_fst_world_bounds t hroot_clean.1
      refine ⟨?_, ?_, ?_⟩
      · rw [hwb0, hwbmap, cdd_fst_class_name, cdd_fst_properties,
          cdd_snd_eq]
        rfl
      · rw [cdd_fst_center t hroot_clean.2, hwb0]
      · rw [hwb0, cdd_isSome_eq_hasPart, subtreeHasPart_cdd]
    · -- n lives in an enriched child subtree
      rw [cdd_fst_children] at hn
      rcases mem_flattenRest.mp hn with ⟨c', hc', hmem⟩
      rcases List.mem_map.mp hc' with ⟨c, hc, hc'eq⟩
      subst hc'eq
      have hchildren : Instance.children t = cs := rfl
      exact ih c (hchildren ▸ hc) (hclean_child c (hchildren ▸ hc)) n hmem

theorem setFullPath_fields (a : Instance) (f : String) :
    (a.setFullPath f).id = a.id ∧ (a.setFullPath f).name = a.name ∧
    (a.setFullPath f).class_name = a.class_name ∧
    (a.setFullPath f).properties = a.properties ∧
    (a.setFullPath f).children = a.children ∧
    (a.setFullPath f).full_path = f ∧
    (a.setFullPath f).world_bounds = a.world_bounds ∧
    (a.setFullPath f).center = a.center := by
  cases a
  simp [Instance.setFullPath, Instance.id, Instance.name, Instance.class_name,
    Instance.properties, Instance.children, Instance.full_path,
    Instance.world_bounds, Instance.center]

theorem setProperties_fields (a : Instance)
    (p : List (String × PropertyValue)) :
    (a.setProperties p).id = a.id ∧ (a.setProperties p).name = a.name ∧
    (a.setProperties p).class_name = a.class_name ∧
    (a.setProperties p).properties = p ∧
    (a.setProperties p).children = a.children ∧
    (a.setProperties p).full_path = a.full_path ∧
    (a.setProperties p).world_bounds = a.world_bounds ∧
    (a.setProperties p).center = a.center := by
  cases a
  simp [Instance.setProperties, Instance.id, Instance.name,
    Instance.class_name, Instance.properties, Instance.children,
    Instance.full_path, Instance.world_bounds, Instance.center]

theorem new_fields (n c s : String) :
    (Instance.new n c s).id = uuidV5 namespaceOID (strBytes s) ∧
    (Instance.new n c s).name = n ∧
    (Instance.new n c s).class_name = c ∧
    (Instance.new n c s).properties = [] ∧
    (Instance.new n c s).children = [] ∧
    (Instance.new n c s).full_path = "" ∧
    (Instance.new n c s).world_bounds = none ∧
    (Instance.new n c s).center = none := by
  simp [Instance.new, Instance.id, Instance.name, Instance.class_name,
    Instance.properties, Instance.children, Instance.full_path,
    Instance.world_bounds, Instance.center]

theorem loadEntryList_clean_of (es : List FsEntry)
    (h : ∀ e ∈ es, ∀ d p m, m ∈ Instance.flattenRest (loadEntry d p e) →
      m.world_bounds = none ∧ m.center = none) :
    ∀ d p m, m ∈ Instance.flattenRest (loadEntryList es d p) →
      m.world_bounds = none ∧ m.center = none := by
  induction es with
  | nil =>
    intro d p m hm
    simp [loadEntryList, Instance.flattenRest] at hm
  | cons e rest ih =>
    intro d p m hm
    rw [loadEntryList, flattenRest_append] at hm
    rcases List.mem_append.mp hm with hm | hm
    · exact h e (List.mem_cons_self e rest) d p m hm
    · exact ih (fun x hx => h x (List.mem_cons_of_mem e hx)) d p m hm

theorem loadEntry_clean (e : FsEntry) :
    ∀ d p m, m ∈ Instance.flattenRest (loadEntry d p e) →
      m.world_bounds = none ∧ m.center = none := by
  induction e using fsEntryInduction with
  | hf nm content =>
    intro d p m hm
    by_cases h1 : extOf nm = "json" ∨ extOf nm = ""
    · simp [loadEntry, h1, Instance.flattenRest] at hm
    · by_cases h2 : strEndsWith (fileStem nm) ".server" ∧ extOf nm = "lua"
      · simp only [loadEntry, if_neg h1, if_pos h2, Instance.flattenRest,
          List.append_nil] at hm
        rw [flatten_cons,
          (setProperties_fields _ _).2.2.2.2.1,
          (new_fields _ _ _).2.2.2.2.1] at hm
        simp only [Instance.flattenRest, List.append_nil] at hm
        rcases List.mem_cons.mp hm with hm | hm
        · subst hm
          exact ⟨((setProperties_fields _ _).2.2.2.2.2.2.1).trans
              (new_fields _ _ _).2.2.2.2.2.2.1,
            ((setProperties_fields _ _).2.2.2.2.2.2.2).trans
              (new_fields _ _ _).2.2.2.2.2.2.2⟩
        · simp at hm
      · by_cases h3 : strEndsWith (fileStem nm) ".local" ∧ extOf nm = "lua"
        · simp only [loadEntry, if_neg h1, if_neg h2, if_pos h3,
            Instance.flattenRest, List.append_nil] at hm
          rw [flatten_cons,
            (setProperties_fields _ _).2.2.2.2.1,
            (new_fields _ _ _).2.2.2.2.1] at hm
          simp only [Instance.flattenRest, List.append_nil] at hm
          rcases List.mem_cons.mp hm with hm | hm
          · subst hm
            exact ⟨((setProperties_fields _ _).2.2.2.2.2.2.1).trans
                (new_fields _ _ _).2.2.2.2.2.2.1,
              ((setProperties_fields _ _).2.2.2.2.2.2.2).trans
                (new_fields _ _ _).2.2.2.2.2.2.2⟩
          · simp at hm
        · by_cases h4 : strEndsWith (fileStem nm) ".module" ∧ extOf nm = "lua"
          · simp only [loadEntry, if_neg h1, if_neg h2, if_neg h3, if_pos h4,
              Instance.flattenRest, List.append_nil] at hm
            rw [flatten_cons,
              (setProperties_fields _ _).2.2.2.2.1,
              (new_fields _ _ _).2.2.2.2.1] at hm
            simp only [Instance.flattenRest, List.append_nil] at hm
            rcases List.mem_cons.mp hm with hm | hm
            · subst hm
              exact ⟨((setProperties_fields _ _).2.2.2.2.2.2.1).trans
                  (new_fields _ _ _).2.2.2.2.2.2.1,
                ((setProperties_fields _ _).2.2.2.2.2.2.2).trans
                  (new_fields _ _ _).2.2.2.2.2.2.2⟩
            · simp at hm
          · simp only [loadEntry, if_neg h1, if_neg h2, if_neg h3, if_neg h4,
              Instance.flattenRest, List.append_nil] at hm
            rw [flatten_cons,
              (setFullPath_fields _ _).2.2.2.2.1,
              (mergeDslProps_fields _ _).2.1,
              (new_fields _ _ _).2.2.2.2.1] at hm
            simp only [Instance.flattenRest, List.append_nil] at hm
            rcases List.mem_cons.mp hm with hm | hm
            · subst hm
              refine ⟨?_, ?_⟩
              · exact ((setFullPath_fields _ _).2.2.2.2.2.2.1).trans
                  (((mergeDslProps_fields _ _).2.2.2.1).trans
                    (new_fields _ _ _).2.2.2.2.2.2.1)
              · exact ((setFullPath_fields _ _).2.2.2.2.2.2.2).trans
                  (((mergeDslProps_fields _ _).2.2.2.2).trans
                    (new_fields _ _ _).2.2.2.2.2.2.2)
            · simp at hm
  | hd nm entries ih =>
    intro d p m hm
    simp only [loadEntry, Instance.flattenRest, List.append_nil] at hm
    rw [flatten_cons, (setChildren_fields _ _).2.2.2.2.1] at hm
    rcases List.mem_cons.mp hm with hm | hm
    · subst hm
      refine ⟨?_, ?_⟩
      · exact ((setChildren_fields _ _).2.2.2.2.2.2.1).trans
          (((setFullPath_fields _ _).2.2.2.2.2.2.1).trans
            (new_fields _ _ _).2.2.2.2.2.2.1)
      · exact ((setChildren_fields _ _).2.2.2.2.2.2.2).trans
          (((setFullPath_fields _ _).2.2.2.2.2.2.2).trans
            (new_fields _ _ _).2.2.2.2.2.2.2)
    · exact loadEntryList_clean_of entries (fun x hx d' p' => ih x hx d' p')
        _ _ m hm

/-- Every node of a freshly loaded (pre-enrichment) tree has empty
enrichment fields. -/
theorem loaded_tree_clean (rootPath : String) (gameEntries : List FsEntry) :
    ∀ m ∈ Instance.flatten
      (((Instance.new "DataModel" "DataModel" "game").setFullPath
          "game").setChildren
        (loadEntryList (sortByName (sortFsList gameEntries))
          (rootPath ++ "/game") "game")),
      m.world_bounds = none ∧ m.center = none := by
  intro m hm
  rw [flatten_cons, (setChildren_fields _ _).2.2.2.2.1] at hm
  rcases List.mem_cons.mp hm with hm | hm
  · subst hm
    refine ⟨?_, ?_⟩
    · exact ((setChildren_fields _ _).2.2.2.2.2.2.1).trans
        (((setFullPath_fields _ _).2.2.2.2.2.2.1).trans
          (new_fields _ _ _).2.2.2.2.2.2.1)
    · exact ((setChildren_fields _ _).2.2.2.2.2.2.2).trans
        (((setFullPath_fields _ _).2.2.2.2.2.2.2).trans
          (new_fields _ _ _).2.2.2.2.2.2.2)
  · exact loadEntryList_clean_of _ (fun e _ d' p' => loadEntry_clean e d' p')
      _ _ m hm

theorem loadEntryList_ids_of (es : List FsEntry)
    (h : ∀ e ∈ es, ∀ d p, (Instance.flattenRest (loadEntry d p e)).map
        Instance.id =
      (entrySeedPaths d e).map (fun s => uuidV5 namespaceOID (strBytes s))) :
    ∀ d p, (Instance.flattenRest (loadEntryList es d p)).map Instance.id =
      (entrySeedPathsList es d).map
        (fun s => uuidV5 namespaceOID (strBytes s)) := by
  induction es with
  | nil =>
    intro d p
    simp [loadEntryList, entrySeedPathsList, Instance.flattenRest]
  | cons e rest ih =>
    intro d p
    rw [loadEntryList, flattenRest_append, List.map_append,
      entrySeedPathsList, List.map_append,
      h e (List.mem_cons_self e rest) d p,
      ih (fun x hx => h x (List.mem_cons_of_mem e hx)) d p]

theorem loadEntry_ids (e : FsEntry) :
    ∀ d p, (Instance.flattenRest (loadEntry d p e)).map Instance.id =
      (entrySeedPaths d e).map
        (fun s => uuidV5 namespaceOID (strBytes s)) := by
  induction e using fsEntryInduction with
  | hf nm content =>
    intro d p
    by_cases h1 : extOf nm = "json" ∨ extOf nm = ""
    · simp [loadEntry, entrySeedPaths, h1, Instance.flattenRest]
    · have hseed : entrySeedPaths d (.file nm content) =
          [replaceBackslash (d ++ "/" ++ nm)] := by
        simp [entrySeedPaths, h1]
      by_cases h2 : strEndsWith (fileStem nm) ".server" ∧ extOf nm = "lua"
      · simp only [loadEntry, if_neg h1, if_pos h2, Instance.flattenRest,
          List.append_nil, hseed]
        rw [flatten_cons, (setProperties_fields _ _).2.2.2.2.1,
          (new_fields _ _ _).2.2.2.2.1]
        simp only [Instance.flattenRest, List.append_nil, List.map_cons,
          List.map_nil, List.nil_append]
        rw [(setProperties_fields _ _).1, (new_fields _ _ _).1]
      · by_cases h3 : strEndsWith (fileStem nm) ".local" ∧ extOf nm = "lua"
        · simp only [loadEntry, if_neg h1, if_neg h2, if_pos h3,
            Instance.flattenRest, List.append_nil, hseed]
          rw [flatten_cons, (setProperties_fields _ _).2.2.2.2.1,
            (new_fields _ _ _).2.2.2.2.1]
          simp only [Instance.flattenRest, List.append_nil, List.map_cons,
            List.map_nil, List.nil_append]
          rw [(setProperties_fields _ _).1, (new_fields _ _ _).1]
        · by_cases h4 : strEndsWith (fileStem nm) ".module" ∧ extOf nm = "lua"
          · simp only [loadEntry, if_neg h1, if_neg h2, if_neg h3, if_pos h4,
              Instance.flattenRest, List.append_nil, hseed]
            rw [flatten_cons, (setProperties_fields _ _).2.2.2.2.1,
              (new_fields _ _ _).2.2.2.2.1]
            simp only [Instance.flattenRest, List.append_nil, List.map_cons,
              List.map_nil, List.nil_append]
            rw [(setProperties_fields _ _).1, (new_fields _ _ _).1]
          · simp only [loadEntry, if_neg h1, if_neg h2, if_neg h3, if_neg h4,
              Instance.flattenRest, List.append_nil, hseed]
            rw [flatten_cons, (setFullPath_fields _ _).2.2.2.2.1,
              (mergeDslProps_fields _ _).2.1, (new_fields _ _ _).2.2.2.2.1]
            simp only [Instance.flattenRest, List.append_nil, List.map_cons,
              List.map_nil, List.nil_append]
            rw [(setFullPath_fields _ _).1, (mergeDslProps_fields _ _).1,
              (new_fields _ _ _).1]
  | hd nm entries ih =>
    intro d p
    simp only [loadEntry, entrySeedPaths, Instance.flattenRest,
      List.append_nil]
    rw [flatten_cons, (setChildren_fields _ _).2.2.2.2.1]
    simp only [List.map_cons]
    rw [(setChildren_fields _ _).1, (setFullPath_fields _ _).1,
      (new_fields _ _ _).1,
      loadEntryList_ids_of entries (fun x hx d' p' => ih x hx d' p') _
        (p ++ "/" ++ cleanName (fileStem nm))]

theorem propertyChangeAt_key (oldProps : List (String × PropertyValue))
    (kv : String × PropertyValue) (pc : String × PropertyChange)
    (h : propertyChangeAt oldProps kv = some pc) : pc.1 = kv.1 := by
  rcases hl : List.lookup kv.1 oldProps with _ | oldV
  · simp only [propertyChangeAt, hl] at h
    cases h
    rfl
  · by_cases hne : kv.2 = oldV
    · simp [propertyChangeAt, hl, hne] at h
    · simp only [propertyChangeAt, hl] at h
      rw [if_pos hne] at h
      cases h
      rfl

theorem lookup_propertyChanges_new_only
    (oldProps newProps : List (String × PropertyValue)) (k : String)
    (v : PropertyValue) (hnodup : (newProps.map Prod.fst).Nodup)
    (hmem : (k, v) ∈ newProps) (hold : List.lookup k oldProps = none) :
    List.lookup k (propertyChanges oldProps newProps) =
      some ⟨"null", fmtValue v⟩ := by
  induction newProps with
  | nil => cases hmem
  | cons kv rest ih =>
    rw [List.map_cons, List.nodup_cons] at hnodup
    rcases List.mem_cons.mp hmem with hmem | hmem
    · subst hmem
      unfold propertyChanges
      rw [List.filterMap_cons]
      have hat : propertyChangeAt oldProps (k, v) =
          some (k, ⟨"null", fmtValue v⟩) := by
        unfold propertyChangeAt
        rw [hold]
      rw [hat]
      simp [List.lookup]
    · have hk : k ≠ kv.1 := by
        intro hkk
        exact hnodup.1 (hkk ▸ List.mem_map.mpr ⟨(k, v), hmem, rfl⟩)
      unfold propertyChanges
      rw [List.filterMap_cons]
      rcases hat : propertyChangeAt oldProps kv with _ | pc
      · exact ih hnodup.2 hmem
      · have hpc := propertyChangeAt_key oldProps kv pc hat
        obtain ⟨pck, pcv⟩ := pc
        simp only at hpc
        subst hpc
        have hbeq : (k == kv.1) = false := beq_eq_false_iff_ne.mpr hk
        simp only [List.lookup, hbeq]
        exact ih hnodup.2 hmem

theorem lookup_propertyChanges_not_in_new
    (oldProps newProps : List (String × PropertyValue)) (k : String)
    (hnew : List.lookup k newProps = none) :
    List.lookup k (propertyChanges oldProps newProps) = none := by
  induction newProps with
  | nil => rfl
  | cons kv rest ih =>
    obtain ⟨k', v'⟩ := kv
    have hk : (k == k') = false := by
      by_cases hkk : k = k'
      · subst hkk
        simp [List.lookup] at hnew
      · exact beq_eq_false_iff_ne.mpr hkk
    have hrest : List.lookup k rest = none := by
      simp only [List.lookup, hk] at hnew
      exact hnew
    unfold propertyChanges
    rw [List.filterMap_cons]
    rcases hat : propertyChangeAt oldProps (k', v') with _ | pc
    · exact ih hrest
    · have hpc := propertyChangeAt_key oldProps (k', v') pc hat
      obtain ⟨pck, pcv⟩ := pc
      simp only at hpc
      subst hpc
      simp only [List.lookup, hk]
      exact ih hrest

/-! ## Known-answer tests for the UUID model -/

/-- Model of `SHA1("abc")` matches the FIPS 180-1 test vector. -/
example : sha1 (strBytes "abc") =
    [0xa9, 0x99, 0x3e, 0x36, 0x47, 0x06, 0x81, 0x6a, 0xba, 0x3e,
     0x25, 0x71, 0x78, 0x50, 0xc2, 0x6c, 0x9c, 0xd0, 0xd8, 0x9d] := by
  decide

/-- Model of `uuid_v5(NAMESPACE_DNS, "www.example.com")` is the RFC 4122 reference
value `2ed6657d-e927-568b-95e1-2665a8aea6a2`. -/
example : uuidV5
    [0x6b, 0xa7, 0xb8, 0x10, 0x9d, 0xad, 0x11, 0xd1,
     0x80, 0xb4, 0x00, 0xc0, 0x4f, 0xd4, 0x30, 0xc8]
    (strBytes "www.example.com") =
    [0x2e, 0xd6, 0x65, 0x7d, 0xe9, 0x27, 0x56, 0x8b, 0x95, 0xe1,
     0x26, 0x65, 0xa8, 0xae, 0xa6, 0xa2] := by
  decide

/-! ## The claims -/

/-- Claim C1. The claim states that after loading, every child's `full_path`
equals `<parent.full_path>/<child.name>`, in particular for instances from
`*.server.lua` / `*.local.lua` / `*.module.lua` files.  The code violates
this for exactly those script instances: `load_directory` never assigns
their `full_path`, which stays `""` from `Instance::new`.  Evaluated here
on the spec's own scenario 4 (`game/ServerScriptService/main.server.lua`):
the script instance is named `main` with class `Script`, its parent's
`full_path` is `game/ServerScriptService`, yet its own `full_path` is the
empty string, not `game/ServerScriptService/main`. -/
theorem c1_script_full_path_left_empty :
    scriptInst.name = "main" ∧
    scriptInst.class_name = "Script" ∧
    (dmScript.children.getD 0 default).full_path = "game/ServerScriptService" ∧
    scriptInst.full_path = "" ∧
    scriptInst.full_path ≠
      (dmScript.children.getD 0 default).full_path ++ "/" ++ scriptInst.name :=
  ⟨by with_unfolding_all rfl, by with_unfolding_all rfl,
   by with_unfolding_all rfl, by with_unfolding_all rfl,
   of_decide_eq_false (by with_unfolding_all rfl)⟩

/-- Claim C2. The claim states byte-identical `world.json` across runs.  The
serialized bytes of an instance's `properties` object follow the iteration
order of a `std::collections::HashMap`, which is randomized per process;
for the spec's scenario-1 Brick (four properties) two admissible iteration
orders already yield different bytes, so the output is not a function of
the project alone. -/
theorem c2_properties_serialization_depends_on_order :
    brickInst.properties.length = 4 ∧
    brickInst.properties.reverse.Perm brickInst.properties ∧
    jsonOfProps brickInst.properties ≠
      jsonOfProps brickInst.properties.reverse :=
  ⟨by with_unfolding_all rfl,
   List.reverse_perm brickInst.properties,
   of_decide_eq_false (by with_unfolding_all rfl)⟩

/-- Claim C3, counterexample. The claim states
`id = uuid_v5(OID_NAMESPACE, full_path)`.  For the Brick of scenario 1
loaded from project root `proj`, the id is the UUIDv5 of the filesystem
path `proj/game/Workspace/Brick.part` — not of the canonical
`game/Workspace/Brick`. -/
theorem c3_id_not_uuid_of_canonical_path :
    brickInst.full_path = "game/Workspace/Brick" ∧
    brickInst.id =
      uuidV5 namespaceOID (strBytes "proj/game/Workspace/Brick.part") ∧
    brickInst.id ≠ uuidV5 namespaceOID (strBytes brickInst.full_path) :=
  ⟨by with_unfolding_all rfl, by with_unfolding_all rfl,
   of_decide_eq_false (by with_unfolding_all rfl)⟩

/-- Claim C3, amended. Every instance the loader creates for a directory
entry gets `id = uuid_v5(OID_NAMESPACE, s)` where `s` is the entry's
*filesystem* path (the loading directory joined with the raw entry name,
extension included, backslashes replaced by forward slashes) — in
depth-first order over the produced forest, one seed per directory or
non-skipped file. -/
theorem c3_amended_ids_are_uuid_of_fs_paths :
    ∀ (es : List FsEntry) (fsDir parent : String),
      (Instance.flattenRest (loadEntryList es fsDir parent)).map Instance.id =
        (entrySeedPathsList es fsDir).map
          (fun s => uuidV5 namespaceOID (strBytes s)) :=
  fun es fsDir parent =>
    loadEntryList_ids_of es (fun e _ => loadEntry_ids e) fsDir parent

/-- Claim C4, counterexample. The claim states a file with an unrecognized
extension yields class `Unknown`.  Loading `game/Workspace/Weird.xyz`
instead yields class `Folder` (the `map_extension_to_class` fallback); the
class is not `Unknown`. -/
theorem c4_unrecognized_extension_file_is_folder :
    weirdInst.name = "Weird" ∧
    weirdInst.class_name = "Folder" ∧
    weirdInst.class_name ≠ "Unknown" :=
  ⟨by with_unfolding_all rfl, by with_unfolding_all rfl,
   of_decide_eq_false (by with_unfolding_all rfl)⟩

/-- Claim C4, amended. For every extension outside the recognized table,
`map_extension_to_class` returns `Folder` — the same default as for
directories; the loader therefore never produces `Unknown` for a file
whose DSL does not override `ClassName`. -/
theorem c4_amended_extension_fallback_is_folder :
    ∀ ext : String,
      ext ∉ ["basepart", "part", "model", "folder", "script", "localscript",
        "modulescript", "gui", "frame", "button", "label"] →
      mapExtensionToClass ext = "Folder" := by
  intro ext h
  simp only [List.mem_cons, List.not_mem_nil, or_false, not_or] at h
  obtain ⟨h1, h2, h3, h4, h5, h6, h7, h8, h9, h10, h11⟩ := h
  simp [mapExtensionToClass, h1, h2, h3, h4, h5, h6, h7, h8, h9, h10, h11]

/-- Witness for C4 (amended) at the concrete extension `xyz`. -/
theorem c4_amended_witness :
    ("xyz" : String) ∉ ["basepart", "part", "model", "folder", "script",
      "localscript", "modulescript", "gui", "frame", "button", "label"] ∧
    mapExtensionToClass "xyz" = "Folder" :=
  ⟨by decide, c4_amended_extension_fallback_is_folder "xyz" (by decide)⟩

/-- Claim C5. The parser `parse_value` tries its alternatives in the listed order: an
input accepted by the `bool` parser yields a `Bool` regardless of the later
alternatives, and a bare identifier on which all nine earlier alternatives
fail yields a `String` carrying the identifier (so `ClassName = Part`
resolves to the string `"Part"`). -/
theorem c5_identifier_falls_back_to_string :
    (∀ (inp rest : List Char) (b : Bool),
      pBool inp = some (rest, b) → pValue inp = some (rest, .bool b)) ∧
    (∀ (inp rest : List Char) (ident : String),
      pBool inp = none → pVector3 inp = none → pCFrame inp = none →
      pColor3FromRGB inp = none → pColor3New inp = none →
      pUDim2 inp = none → pEnum inp = none → pNumber inp = none →
      pStringLit inp = none → pIdentifier inp = some (rest, ident) →
      pValue inp = some (rest, .string ident)) := by
  constructor
  · intro inp rest b h
    simp [pValue, h]
  · intro inp rest ident h1 h2 h3 h4 h5 h6 h7 h8 h9 h10
    simp [pValue, h1, h2, h3, h4, h5, h6, h7, h8, h9, h10]

/-- Witness for C5: `true` parses as a `Bool`, and the bare identifier
`Part` (on which every earlier alternative fails) parses as the string
`"Part"`. -/
theorem c5_witness :
    pValue "true".toList = some ([], .bool true) ∧
    pValue "Part".toList = some ([], .string "Part") :=
  ⟨c5_identifier_falls_back_to_string.1 "true".toList [] true (by decide),
   c5_identifier_falls_back_to_string.2 "Part".toList [] "Part" (by decide)
     (by decide) (by decide) (by decide) (by decide) (by decide) (by decide)
     (by decide) (by decide) (by decide)⟩

/-- Claim C6. In the per-path property diff: a key present in the new side's
properties (whose keys, coming from a HashMap, are pairwise distinct) but
absent from the old side is recorded with `old = "null"` and `new` its
stringified value; a key absent from the new side — in particular one
present only on the old side — produces no entry at all. -/
theorem c6_property_additions_recorded_removals_not :
    (∀ (oldProps newProps : List (String × PropertyValue)) (k : String)
        (v : PropertyValue),
      (newProps.map Prod.fst).Nodup → (k, v) ∈ newProps →
      List.lookup k oldProps = none →
      List.lookup k (propertyChanges oldProps newProps) =
        some ⟨"null", fmtValue v⟩) ∧
    (∀ (oldProps newProps : List (String × PropertyValue)) (k : String)
        (w : PropertyValue),
      (k, w) ∈ oldProps → List.lookup k newProps = none →
      List.lookup k (propertyChanges oldProps newProps) = none) :=
  ⟨fun oldProps newProps k v hnodup hmem hold =>
    lookup_propertyChanges_new_only oldProps newProps k v hnodup hmem hold,
   fun oldProps newProps k _w _hmem hnew =>
    lookup_propertyChanges_not_in_new oldProps newProps k hnew⟩

/-- Witness for C6 on one-property sides: `Anchored` only on the new side
is recorded as a change from `"null"`; `Color` only on the old side leaves
no entry. -/
theorem c6_witness :
    ([("Anchored", PropertyValue.bool true)].map Prod.fst).Nodup ∧
    ("Anchored", PropertyValue.bool true) ∈
      [("Anchored", PropertyValue.bool true)] ∧
    List.lookup "Anchored" [("Color", PropertyValue.bool false)] = none ∧
    List.lookup "Anchored"
        (propertyChanges [("Color", PropertyValue.bool false)]
          [("Anchored", PropertyValue.bool true)]) =
      some ⟨"null", fmtValue (PropertyValue.bool true)⟩ ∧
    ("Color", PropertyValue.bool false) ∈ [("Color", PropertyValue.bool false)] ∧
    List.lookup "Color" [("Anchored", PropertyValue.bool true)] = none ∧
    List.lookup "Color"
        (propertyChanges [("Color", PropertyValue.bool false)]
          [("Anchored", PropertyValue.bool true)]) = none :=
  ⟨by decide, by decide, by decide,
   c6_property_additions_recorded_removals_not.1 _ _ "Anchored"
     (PropertyValue.bool true) (by decide) (by decide) (by decide),
   by decide, by decide,
   c6_property_additions_recorded_removals_not.2 _ _ "Color"
     (PropertyValue.bool false) (by decide) (by decide)⟩

/-- Claim C7. The spatial change of the per-path diff is exactly: present iff
both sides have a center and the (squared) Euclidean distance between them
exceeds the (squared) `1e-3` threshold, and when present it carries both
centers and the displacement magnitude (its square, in this exact
model). -/
theorem c7_spatial_change_iff_threshold_exceeded :
    ∀ (oldC newC : Option Vec3q),
      spatialChange oldC newC =
        (match oldC, newC with
         | some o, some n =>
           if distSq o n > 1 / 1000000 then
             some ⟨some o, some n, distSq o n⟩
           else none
         | _, _ => none) := by
  intro oldC newC
  cases oldC with
  | none =>
    cases newC with
    | none => simp [spatialChange]
    | some n =>
      simp only [spatialChange]
      rw [if_pos (by simp)]
      norm_num
  | some o =>
    cases newC with
    | none =>
      simp only [spatialChange]
      rw [if_pos (by simp)]
      norm_num
    | some n =>
      by_cases he : o = n
      · subst he
        simp only [spatialChange, ne_eq, not_true_eq_false, if_false,
          reduceIte]
        have hz : distSq o o = 0 := by simp [distSq]
        rw [hz]
        norm_num
      · simp only [spatialChange]
        rw [if_pos (by simpa using he)]

/-- Claim C8. After loading and enriching a project, every instance's
`world_bounds` is the componentwise min/max hull of its own part box (the
eight transformed corners of `±Size/2`, with the CFrame/Position/identity
transform and the `(4,1,2)` size default, contributed only for classes
`Part`/`BasePart`) and its children's bounds; whenever bounds are present
the center is the midpoint `(min+max)/2`; and bounds are present exactly
when a Part lives in the subtree. -/
theorem c8_bounds_are_hull_center_midpoint :
    ∀ (rootPath : String) (rootEntries : List FsEntry) (dm : Instance),
      loadProject rootPath rootEntries = some dm →
      ∀ n ∈ Instance.flatten dm,
        n.world_bounds = (n.children.map Instance.world_bounds).foldl optHull
            (selfPartBounds n.class_name n.properties) ∧
        n.center = n.world_bounds.map midpoint ∧
        n.world_bounds.isSome = subtreeHasPart n := by
  intro rootPath rootEntries dm hdm n hn
  unfold loadProject at hdm
  rcases hfind : findGameEntries rootEntries with _ | gameEntries
  · rw [hfind] at hdm
    cases hdm
  · rw [hfind] at hdm
    simp only [Option.some.injEq] at hdm
    subst hdm
    exact cdd_spec _ (loaded_tree_clean rootPath gameEntries) n hn

/-- Witness for C8 at the Brick of scenario 1: the enriched node at index 2
of the flattened tree (the Brick itself) satisfies the hull/midpoint/part
characterization. -/
theorem c8_witness :
    loadProject "proj" fsBrick = some dmBrick ∧
    2 < (Instance.flatten dmBrick).length ∧
    (brickNode.world_bounds =
        (brickNode.children.map Instance.world_bounds).foldl optHull
          (selfPartBounds brickNode.class_name brickNode.properties) ∧
      brickNode.center = brickNode.world_bounds.map midpoint ∧
      brickNode.world_bounds.isSome = subtreeHasPart brickNode) :=
  ⟨by with_unfolding_all rfl,
   by with_unfolding_all decide,
   c8_bounds_are_hull_center_midpoint "proj" fsBrick dmBrick
     (by with_unfolding_all rfl) brickNode
     (getD_mem_of_lt (by with_unfolding_all decide) default)⟩

/-- Claim C9. In strict mode (`relaxed = false`), whenever the project loads
and the analysis returns a report with a non-empty `errors` list, the run
ends with `process::exit(1)` and the renderer is never invoked — for every
option combination, previous world and renderer behavior. -/
theorem c9_strict_nonempty_errors_exit1_no_render :
    ∀ (opts : RunOptions) (rootPath : String) (rootEntries : List FsEntry)
      (env : AnalyzerEnv) (oldWorld : Option Instance) (renderOk : Bool)
      (d : DiagnosticsReport),
      opts.relaxed = false →
      (loadProject rootPath rootEntries).isSome = true →
      (runAnalysis rootPath rootEntries opts.relaxed env).2 = .ok d →
      d.errors ≠ [] →
      (runProject opts rootPath rootEntries env oldWorld renderOk).kind =
          .exited 1 ∧
      (runProject opts rootPath rootEntries env oldWorld
          renderOk).renderInvoked = false := by
  intro opts rootPath rootEntries env oldWorld renderOk d hrelax hload hana
    herr
  rcases hLP : loadProject rootPath rootEntries with _ | dm
  · rw [hLP] at hload
    simp at hload
  · have hana' : (runAnalysis rootPath rootEntries false env).2 = .ok d := by
      rw [← hrelax]
      exact hana
    have hcond : ¬false = true ∧ d.errors ≠ [] := ⟨by simp, herr⟩
    simp only [runProject, hLP, hrelax, hana', if_pos hcond]
    simp

/-- Witness for C9: strict options with render requested, the scenario-4
project, an installed analyzer that reports a type error. -/
theorem c9_witness :
    strictRenderOpts.relaxed = false ∧
    (loadProject "proj" fsScript).isSome = true ∧
    (runAnalysis "proj" fsScript strictRenderOpts.relaxed noisyEnv).2 =
      .ok ⟨[scriptDiag], "1.0"⟩ ∧
    (⟨[scriptDiag], "1.0"⟩ : DiagnosticsReport).errors ≠ [] ∧
    ((runProject strictRenderOpts "proj" fsScript noisyEnv none true).kind =
        .exited 1 ∧
      (runProject strictRenderOpts "proj" fsScript noisyEnv none
          true).renderInvoked = false) :=
  ⟨rfl, by with_unfolding_all rfl, by with_unfolding_all rfl, by decide,
   c9_strict_nonempty_errors_exit1_no_render strictRenderOpts "proj"
     fsScript noisyEnv none true ⟨[scriptDiag], "1.0"⟩ rfl
     (by with_unfolding_all rfl) (by with_unfolding_all rfl) (by decide)⟩

/-- Claim C10. With the option `relaxed = true` the driver passes
`skip_analysis = true`, so `run_analysis` returns the empty report before
even looking for the analyzer: no file is ever analyzed and the
diagnostics artifact is always the empty-error report — even when the
analyzer is installed and the scripts would produce diagnostics. -/
theorem c10_relaxed_skips_analyzer_empty_report :
    ∀ (opts : RunOptions) (rootPath : String) (rootEntries : List FsEntry)
      (env : AnalyzerEnv) (oldWorld : Option Instance) (renderOk : Bool),
      opts.relaxed = true →
      runAnalysis rootPath rootEntries opts.relaxed env =
        ([], .ok ⟨[], "1.0"⟩) ∧
      ((loadProject rootPath rootEntries).isSome = true →
        (runProject opts rootPath rootEntries env oldWorld
            renderOk).analyzedFiles = [] ∧
        (runProject opts rootPath rootEntries env oldWorld
            renderOk).wroteDiagnostics = some (.report ⟨[], "1.0"⟩)) := by
  intro opts rootPath rootEntries env oldWorld renderOk hrelax
  have hana : runAnalysis rootPath rootEntries true env =
      ([], .ok ⟨[], "1.0"⟩) := rfl
  refine ⟨by rw [hrelax]; exact hana, fun hload => ?_⟩
  rcases hLP : loadProject rootPath rootEntries with _ | dm
  · rw [hLP] at hload
    simp at hload
  · simp only [runProject, hLP, hrelax, hana]
    rcases opts.render with _ | _ <;> rcases renderOk with _ | _ <;> simp

/-- Witness for C10: relaxed options against the same noisy analyzer
environment of the C9 witness — the analyzer would report an error, yet no
file is analyzed and the empty report is written. -/
theorem c10_witness :
    (runProject relaxedRenderOpts "proj" fsScript noisyEnv none
        true).analyzedFiles = [] ∧
    (runProject relaxedRenderOpts "proj" fsScript noisyEnv none
        true).wroteDiagnostics = some (.report ⟨[], "1.0"⟩) :=
  (c10_relaxed_skips_analyzer_empty_report relaxedRenderOpts "proj" fsScript
    noisyEnv none true rfl).2 (by with_unfolding_all rfl)
